import Mathlib

/-!
Verification of the ddm data-management core against its specification.

This file shallowly embeds the parts of the repository that the claims
C1..C10 are about:

* `lib/dataformat/block.py` — the Block entity, its FIFO file-set cache,
  the integrity-checked file loader and the embed protocol (C5, C6, C7);
* `lib/core/components/impl/socketappserver.py` — the authentication
  section and the work-area dispatch of `_process_application` (C1, C10);
* `lib/detox/policy.py` — `PolicyLine.evaluate`, `Policy.evaluate`,
  `Policy.parse_lines`, `Policy.partition_replicas` and
  `Policy.restore_replicas` (C2, C3, C4, C9);
* `lib/policy/producers/weblock.py` — `WebReplicaLock.update` (C8).

Machine-level details irrelevant to the claims (logging, real sockets,
threads, the MySQL backends) are not modelled.  Classes referenced by the
code but absent from the repository snapshot (`detox/condition.py`,
`detox/variables.py`, the `Site` class) are modelled from the spec; each
such definition carries a doc comment starting with `Modelled from the
spec:`.
-/

namespace Ddm

/-! ## Block file-set cache (`lib/dataformat/block.py`)

The cache `Block._files_cache` is a Python `collections.OrderedDict`
mapping blocks to frozen file sets.  We embed it as an association list
in insertion order, keyed by block id; `popitem(last = False)` removes
the head (the oldest entry). -/

/-- `Block._MAX_FILES_CACHE_DEPTH` from `block.py`. -/
def MAX_FILES_CACHE_DEPTH : Nat := 1000

/-- A cache is the `OrderedDict` of `block.py` in insertion order:
oldest entry first.  Values are the frozen sets of file ids. -/
abbrev FilesCache := List (Nat × List Nat)

/-- The eviction loop of `Block._check_and_load_files`:
`while len(Block._files_cache) >= Block._MAX_FILES_CACHE_DEPTH:
Block._files_cache.popitem(last = False)` — drop the oldest entry until
fewer than `MAX_FILES_CACHE_DEPTH` remain. -/
def evictToDepth : FilesCache → FilesCache
  | [] => []
  | e :: rest =>
    if MAX_FILES_CACHE_DEPTH ≤ (e :: rest).length then evictToDepth rest
    else e :: rest

/-- `Block._files_cache[self] = files` after the eviction loop
(`OrderedDict` assignment: an existing key keeps its position, a new key
is appended at the newest end). -/
def cacheInsert (cache : FilesCache) (k : Nat) (v : List Nat) : FilesCache :=
  let c := evictToDepth cache
  if c.any (fun p => p.1 = k) then
    c.map (fun p => if p.1 = k then (k, v) else p)
  else
    c ++ [(k, v)]

/-- `Block._files_cache.pop(self)` (in `Block.unlink` and in the
non-cache branch of `_check_and_load_files`). -/
def cachePop (cache : FilesCache) (k : Nat) : FilesCache :=
  cache.filter (fun p => p.1 ≠ k)

theorem evictToDepth_length (cache : FilesCache) :
    (evictToDepth cache).length =
      if MAX_FILES_CACHE_DEPTH ≤ cache.length then MAX_FILES_CACHE_DEPTH - 1
      else cache.length := by
  induction cache with
  | nil => simp [evictToDepth, MAX_FILES_CACHE_DEPTH]
  | cons e rest ih =>
    rw [evictToDepth]
    by_cases h : MAX_FILES_CACHE_DEPTH ≤ (e :: rest).length
    · rw [if_pos h, ih, if_pos h]
      simp only [List.length_cons] at h ⊢
      by_cases h2 : MAX_FILES_CACHE_DEPTH ≤ rest.length
      · rw [if_pos h2]
      · rw [if_neg h2]
        omega
    · rw [if_neg h, if_neg h]

theorem evictToDepth_isSuffix (cache : FilesCache) :
    ∃ n, evictToDepth cache = cache.drop n := by
  induction cache with
  | nil => exact ⟨0, rfl⟩
  | cons e rest ih =>
    rw [evictToDepth]
    by_cases h : MAX_FILES_CACHE_DEPTH ≤ (e :: rest).length
    · rw [if_pos h]
      obtain ⟨n, hn⟩ := ih
      exact ⟨n + 1, hn⟩
    · rw [if_neg h]
      exact ⟨0, rfl⟩

theorem cacheInsert_length_le (cache : FilesCache) (k : Nat) (v : List Nat) :
    (cacheInsert cache k v).length ≤ MAX_FILES_CACHE_DEPTH := by
  have hlen := evictToDepth_length cache
  rw [cacheInsert]
  by_cases h : (evictToDepth cache).any (fun p => p.1 = k)
  · simp only [h, if_pos, List.length_map]
    rw [hlen]
    by_cases h2 : MAX_FILES_CACHE_DEPTH ≤ cache.length
    · rw [if_pos h2]; omega
    · rw [if_neg h2]; omega
  · simp only [h]
    rw [if_neg (by simp_all)]
    rw [List.length_append, hlen]
    by_cases h2 : MAX_FILES_CACHE_DEPTH ≤ cache.length
    · rw [if_pos h2]
      simp [MAX_FILES_CACHE_DEPTH]
    · rw [if_neg h2]
      simp only [List.length_cons, List.length_nil]
      omega

/-- **C5.** The block file-set cache never holds more than
`MAX_FILES_CACHE_DEPTH` entries: the inserting operation
(`_check_and_load_files`) first evicts oldest-first until fewer than
`MAX_FILES_CACHE_DEPTH` remain (the evicted state is a suffix of the
previous cache, so eviction is FIFO), and the only other mutation,
`pop`, shrinks the cache; hence `length ≤ MAX_FILES_CACHE_DEPTH` is an
invariant preserved by every cache mutation. -/
theorem filesCache_bounded (cache : FilesCache) (k : Nat) (v : List Nat)
    (h : cache.length ≤ MAX_FILES_CACHE_DEPTH) :
    (cacheInsert cache k v).length ≤ MAX_FILES_CACHE_DEPTH ∧
    (cachePop cache k).length ≤ MAX_FILES_CACHE_DEPTH ∧
    (∃ n, evictToDepth cache = cache.drop n) := by
  refine ⟨cacheInsert_length_le cache k v, ?_, evictToDepth_isSuffix cache⟩
  calc (cachePop cache k).length ≤ cache.length := List.length_filter_le _ _
    _ ≤ MAX_FILES_CACHE_DEPTH := h

/-- Witness for C5: the invariant applies at a concrete cache state. -/
theorem filesCache_bounded_witness :
    ([(1, [10]), (2, [20])] : FilesCache).length ≤ MAX_FILES_CACHE_DEPTH ∧
    ((cacheInsert [(1, [10]), (2, [20])] 3 [30]).length ≤ MAX_FILES_CACHE_DEPTH ∧
     (cachePop [(1, [10]), (2, [20])] 3).length ≤ MAX_FILES_CACHE_DEPTH ∧
     (∃ n, evictToDepth [(1, [10]), (2, [20])] = ([(1, [10]), (2, [20])] : FilesCache).drop n)) :=
  ⟨by decide, filesCache_bounded [(1, [10]), (2, [20])] 3 [30] (by decide)⟩

/-! ## Block fields, `_load_files` and `embed_into` (`lib/dataformat/block.py`) -/

/-- The persistent fields of a `Block` (`__slots__` minus the volatile
file-set pointer and the replica back-references, which the claims about
`_load_files` and `embed_into` do not touch).  `datasetName` stands for
`Block._dataset_name()`. -/
structure BlockRec where
  name : String
  datasetName : String
  size : Nat
  num_files : Nat
  is_open : Bool
  last_update : Nat
  id : Nat
deriving DecidableEq, Repr

/-- A file as `_load_files` sees it: its `lfn` and its `size`. -/
abbrev FileRec := String × Nat

/-- `Block._load_files`: blocks with `id == 0` reload an empty set with
no verification; otherwise the files come from
`Block.inventory_store.get_files(self)` (embedded as the function
`get_files` from block id to file list) and the two integrity checks
run, raising `IntegrityError` on mismatch. -/
def load_files (get_files : Nat → List FileRec) (b : BlockRec) :
    Except String (List FileRec) :=
  if b.id = 0 then .ok []
  else
    let files := get_files b.id
    if files.length ≠ b.num_files then
      .error "IntegrityError: number of files mismatch"
    else if (files.map Prod.snd).sum ≠ b.size then
      .error "IntegrityError: size mismatch"
    else .ok files

/-- **C6 counterexample.** The claim quantifies over *every* Block, but a
block with `id = 0` reloads the empty file set with no verification:
here `num_files = 1` and `size = 5`, yet `_load_files` returns the empty
set instead of raising `IntegrityError`, and the returned set violates
both declared counts. -/
theorem load_files_unchecked_for_id_zero :
    load_files (fun _ => [("f1", 5)])
        { name := "b1", datasetName := "/d", size := 5, num_files := 1,
          is_open := false, last_update := 0, id := 0 } = .ok [] ∧
    ([] : List FileRec).length ≠ 1 ∧ (([] : List FileRec).map Prod.snd).sum ≠ 5 := by
  refine ⟨rfl, by decide, by decide⟩

/-- **C6 (amended).** For every Block *with nonzero id*, reloading its
file set verifies that the number of loaded files equals `num_files`
and that their total size equals `size`, raising `IntegrityError` when
either check fails; a successful reload never returns a file set
violating these equalities.  (A block with `id = 0` reloads an empty
set with no verification.) -/
theorem load_files_integrity (get_files : Nat → List FileRec) (b : BlockRec)
    (h : b.id ≠ 0) :
    (∀ fs, load_files get_files b = .ok fs →
      fs.length = b.num_files ∧ (fs.map Prod.snd).sum = b.size) ∧
    ((get_files b.id).length ≠ b.num_files ∨
        ((get_files b.id).map Prod.snd).sum ≠ b.size →
      ∃ e, load_files get_files b = .error e) := by
  constructor
  · intro fs hok
    rw [load_files, if_neg h] at hok
    by_cases h1 : (get_files b.id).length ≠ b.num_files
    · rw [if_pos h1] at hok
      cases hok
    · rw [if_neg h1] at hok
      by_cases h2 : ((get_files b.id).map Prod.snd).sum ≠ b.size
      · rw [if_pos h2] at hok
        cases hok
      · rw [if_neg h2] at hok
        cases hok
        push_neg at h1 h2
        exact ⟨h1, h2⟩
  · intro hbad
    rw [load_files, if_neg h]
    by_cases h1 : (get_files b.id).length ≠ b.num_files
    · rw [if_pos h1]
      exact ⟨_, rfl⟩
    · have h2 : ((get_files b.id).map Prod.snd).sum ≠ b.size := by tauto
      rw [if_neg h1, if_pos h2]
      exact ⟨_, rfl⟩

/-- Witness for C6: a block with `id = 3` whose store holds a wrong
number of files triggers the error, and a consistent store passes. -/
theorem load_files_integrity_witness :
    (3 : Nat) ≠ 0 ∧
    ((∀ fs, load_files (fun _ => [("f1", 5)])
        { name := "b1", datasetName := "/d", size := 5, num_files := 2,
          is_open := false, last_update := 0, id := 3 } = .ok fs →
        fs.length = 2 ∧ (fs.map Prod.snd).sum = 5) ∧
     (((fun (_ : Nat) => [(("f1" : String), (5 : Nat))]) 3).length ≠ 2 ∨
         ((((fun (_ : Nat) => [(("f1" : String), (5 : Nat))]) 3).map Prod.snd).sum ≠ 5) →
       ∃ e, load_files (fun _ => [("f1", 5)])
        { name := "b1", datasetName := "/d", size := 5, num_files := 2,
          is_open := false, last_update := 0, id := 3 } = .error e)) :=
  ⟨by decide, load_files_integrity (fun _ => [("f1", 5)]) _ (by decide)⟩

/-- `Block.__eq__`: field-wise comparison of name, dataset name, size,
number of files, openness and last update (the `id` is *not* compared). -/
def blockEq (a b : BlockRec) : Bool :=
  a.name == b.name && a.datasetName == b.datasetName &&
  a.size == b.size && a.num_files == b.num_files &&
  a.is_open == b.is_open && a.last_update == b.last_update

/-- `Block._copy_no_check`: copy `is_open`, `last_update`, `size` and
`num_files` from `other` (keeping name and id); the returned flag
records whether the file set had to be loaded permanently (sizes or
file counts differ, client side). -/
def copy_no_check (self other : BlockRec) : BlockRec × Bool :=
  ({ self with is_open := other.is_open, last_update := other.last_update,
               size := other.size, num_files := other.num_files },
   self.size != other.size || self.num_files != other.num_files)

/-- A dataset as `Block.embed_into` sees it: a name and its blocks
(`dataset.blocks`, a set, kept in insertion order). -/
structure DatasetRec where
  name : String
  blocks : List BlockRec
deriving DecidableEq, Repr

/-- The inventory registry consulted by `Block.embed_into`
(`inventory.datasets`, keyed by name). -/
structure BlockInventory where
  datasets : List DatasetRec
deriving DecidableEq, Repr

/-- `dataset.blocks.add(block)` inside `embed_into`. -/
def insertBlock (inv : BlockInventory) (dname : String) (nb : BlockRec) :
    BlockInventory :=
  ⟨inv.datasets.map
    (fun d => if d.name == dname then ⟨d.name, d.blocks ++ [nb]⟩ else d)⟩

/-- In-place field copy on the registered block (the effect of
`block._copy_no_check(self)` on the inventory graph). -/
def replaceBlock (inv : BlockInventory) (dname : String) (b2 : BlockRec) :
    BlockInventory :=
  ⟨inv.datasets.map
    (fun d => if d.name == dname then
        ⟨d.name, d.blocks.map (fun b => if b.name == b2.name then b2 else b)⟩
      else d)⟩

/-- `Block.embed_into(inventory, check)`.  The result carries the new
inventory, the `updated` flag, and whether the field-copy branch ran
(that branch is the only one that copies fields and may load the file
set).  An unknown dataset raises `ObjectError`.  Python's `block is
self or block == self` is embedded as `blockEq` (identity implies
field-wise equality). -/
def embed_into (inv : BlockInventory) (e : BlockRec) (check : Bool) :
    Except String (BlockInventory × Bool × Bool) :=
  match inv.datasets.find? (fun d => d.name == e.datasetName) with
  | none => .error ("ObjectError: Unknown dataset " ++ e.datasetName)
  | some d =>
    match d.blocks.find? (fun b => b.name == e.name) with
    | none =>
      let nb : BlockRec := { e with datasetName := d.name }
      .ok (insertBlock inv d.name nb, true, false)
    | some b =>
      if check && blockEq b e then
        .ok (inv, false, false)
      else
        let (b2, loaded) := copy_no_check b e
        .ok (replaceBlock inv d.name b2, true, loaded)

/-- **C7.** Embedding a Block is idempotent: starting from an inventory
whose registry knows the dataset but not the block, the first
check-mode embed creates the block and returns `updated = true` without
copying fields, and a second embed of the same (field-wise equal)
detached block leaves the inventory unchanged, copies nothing, loads no
file set, and returns `updated = false`. -/
theorem find?_map_of_pred_preserved {α : Type} (p : α → Bool) (f : α → α)
    (hf : ∀ a, p (f a) = p a) (l : List α) :
    (l.map f).find? p = (l.find? p).map f := by
  induction l with
  | nil => rfl
  | cons a l ih =>
    simp only [List.map_cons, List.find?_cons]
    rw [hf a]
    cases hpa : p a <;> simp [ih]

theorem block_embed_idempotent (inv : BlockInventory) (e : BlockRec)
    (d0 : DatasetRec)
    (hd : inv.datasets.find? (fun d => d.name == e.datasetName) = some d0)
    (hb : d0.blocks.find? (fun b => b.name == e.name) = none) :
    ∃ inv1, embed_into inv e true = .ok (inv1, true, false) ∧
      embed_into inv1 e true = .ok (inv1, false, false) := by
  have hdname : d0.name = e.datasetName := by
    have := List.find?_some hd
    simpa using this
  refine ⟨insertBlock inv d0.name { e with datasetName := d0.name }, ?_, ?_⟩
  · simp only [embed_into, hd, hb]
  · have hfind1 : (insertBlock inv d0.name
        { e with datasetName := d0.name }).datasets.find?
          (fun d => d.name == e.datasetName) =
        some ⟨d0.name, d0.blocks ++ [{ e with datasetName := d0.name }]⟩ := by
      rw [insertBlock]
      rw [find?_map_of_pred_preserved (fun d : DatasetRec => d.name == e.datasetName)
        _ (fun d => by by_cases hdn : (d.name == d0.name) = true <;> simp [hdn])]
      rw [hd]
      simp [hdname]
    have hfind2 : List.find? (fun b : BlockRec => b.name == e.name)
        (d0.blocks ++ [{ e with datasetName := d0.name }]) =
        some { e with datasetName := d0.name } := by
      rw [List.find?_append, hb]
      simp [List.find?_cons]
    have heq : blockEq { e with datasetName := d0.name } e = true := by
      simp [blockEq, hdname]
    simp only [embed_into, hfind1, hfind2, heq, Bool.and_self, if_pos]

/-- Witness for C7: a concrete empty dataset registry accepts a block
once, and the second embed is a no-op returning `updated = false`. -/
theorem block_embed_idempotent_witness :
    ∃ inv1,
      embed_into ⟨[⟨"/d", []⟩]⟩
        { name := "b1", datasetName := "/d", size := 10, num_files := 2,
          is_open := false, last_update := 7, id := 4 } true =
        .ok (inv1, true, false) ∧
      embed_into inv1
        { name := "b1", datasetName := "/d", size := 10, num_files := 2,
          is_open := false, last_update := 7, id := 4 } true =
        .ok (inv1, false, false) :=
  block_embed_idempotent ⟨[⟨"/d", []⟩]⟩ _ ⟨"/d", []⟩ (by decide) (by decide)

/-! ## Application server (`lib/core/components/impl/socketappserver.py`)

The authentication section of `SocketAppServer._process_application`
(lines 157-171) and the work-area dispatch (lines 185-202). -/

/-- The peer certificate as returned by `conn.getpeercert()`: `subject`
and `issuer` are lists of RDNs, each RDN a list of key/value pairs. -/
structure PeerCert where
  subject : List (List (String × String))
  issuer : List (List (String × String))
deriving DecidableEq, Repr

/-- `DN_TRANSLATION` from `socketappserver.py`; a key outside the table
raises `KeyError` (modelled as `none`). -/
def dnTranslation : String → Option String
  | "domainComponent" => some "DC"
  | "organizationalUnitName" => some "OU"
  | "commonName" => some "CN"
  | _ => none

/-- One RDN formatted as
`'+'.join('%s=%s' % (DN_TRANSLATION[key], value) for key, value in rdn)`. -/
def formatRDN (rdn : List (String × String)) : Option String := do
  let parts ← rdn.mapM (fun kv => do
    let tk ← dnTranslation kv.1
    pure (tk ++ "=" ++ kv.2))
  pure (String.intercalate "+" parts)

/-- The DN accumulation `dn += '/' + '+'.join(...)` over a list of RDNs. -/
def formatDN (rdns : List (List (String × String))) : Option String :=
  rdns.foldlM (fun dn rdn => do
    let s ← formatRDN rdn
    pure (dn ++ "/" ++ s)) ""

/-- Outcome of the authentication section: proceed past authentication
with an identified user, reply `failed` with `Unidentified user DN`,
or propagate an exception (`KeyError` from `DN_TRANSLATION`). -/
inductive AuthOutcome where
  | proceed (userName dn : String)
  | unidentified (dn : String)
  | exception
deriving DecidableEq, Repr

/-- The loop `for dkey in ['subject', 'issuer']` of
`_process_application`.  NOTE carefully: the loop body in the source
reads `user_cert_data['subject']` regardless of `dkey`, so both
iterations format the *subject* RDNs; the `for`/`else` reply quotes the
last computed `dn`. -/
def authLoop (identify : String → Option String) (cert : PeerCert)
    (dn : String) : List String → AuthOutcome
  | [] => .unidentified dn
  | _dkey :: rest =>
    match formatDN cert.subject with
    | none => .exception
    | some dn' =>
      match identify dn' with
      | some user => .proceed user dn'
      | none => authLoop identify cert dn' rest

/-- The authentication section of `_process_application`:
`identify` is `master.identify_user`. -/
def authenticate (identify : String → Option String) (cert : PeerCert) :
    AuthOutcome :=
  authLoop identify cert "" ["subject", "issuer"]

/-- **C1 (code bug).** The claim says that when the subject DN
identifies no user the *issuer* DN is formatted and looked up, so a
certificate whose issuer DN (but not subject DN) identifies a user
proceeds past authentication.  The code's loop variable `dkey` is
unused in the loop body, which reads `user_cert_data['subject']` both
times: at this certificate the issuer DN `/CN=alice` identifies user
`alice`, yet the connection is rejected with
`Unidentified user DN /CN=bob`.  The issuer RDNs are never read at
all. -/
theorem authenticate_never_reads_issuer :
    (formatDN ([[("commonName", "alice")]]) = some "/CN=alice") ∧
    ((fun dn => if dn = "/CN=alice" then some "alice" else none) "/CN=alice"
      = some "alice") ∧
    (authenticate (fun dn => if dn = "/CN=alice" then some "alice" else none)
        ⟨[[("commonName", "bob")]], [[("commonName", "alice")]]⟩ =
      .unidentified "/CN=bob") ∧
    (∀ identify cert iss,
      authenticate identify cert =
        authenticate identify { cert with issuer := iss }) := by
  refine ⟨by decide, by decide, by decide, ?_⟩
  intro identify cert iss
  rfl

/-- Responses sent over the socket by the handler. -/
inductive Response where
  | ok (msg : String)
  | failed (msg : String)
deriving DecidableEq, Repr

/-- The handler a new application is routed to at the end of
`_process_application`, together with the work area it receives
(`none` models the falsy work-area value). -/
inductive HandlerCall where
  | submit (workarea : Option String)
  | interact (workarea : Option String)
deriving DecidableEq, Repr

/-- The fields of `app_data` the work-area dispatch reads. -/
structure NewAppData where
  path : Option String
  command : String
deriving DecidableEq, Repr

/-- Lines 185-202 of `_process_application`: choose the work area (the
client-supplied `path`, or `_make_workarea()`, whose falsy result sends
`Failed to create work area` *without returning*), then dispatch on
`command`.  The result collects the responses sent and the handler
invoked. -/
def dispatchNewApp (appData : NewAppData) (makeWorkarea : Option String) :
    List Response × Option HandlerCall :=
  let st :=
    match appData.path with
    | some p => (([] : List Response), some p)
    | none =>
      match makeWorkarea with
      | some w => ([], some w)
      | none => ([Response.failed "Failed to create work area"], none)
  if appData.command = "submit" then (st.1, some (.submit st.2))
  else if appData.command = "interact" then (st.1, some (.interact st.2))
  else (st.1, none)

/-- **C10.** When no `path` is supplied and work-area creation fails,
the handler sends `Failed to create work area` but does not terminate
the request: it still invokes the submit or interact handling with the
falsy work-area value. -/
theorem dispatch_proceeds_after_workarea_failure (appData : NewAppData)
    (hpath : appData.path = none) :
    (appData.command = "submit" →
      dispatchNewApp appData none =
        ([.failed "Failed to create work area"], some (.submit none))) ∧
    (appData.command = "interact" →
      dispatchNewApp appData none =
        ([.failed "Failed to create work area"], some (.interact none))) := by
  constructor
  · intro hcmd
    rw [dispatchNewApp, hpath]
    simp [hcmd]
  · intro hcmd
    rw [dispatchNewApp, hpath]
    simp [hcmd]

/-- Witness for C10: the concrete `submit` request without `path`. -/
theorem dispatch_proceeds_after_workarea_failure_witness :
    dispatchNewApp ⟨none, "submit"⟩ none =
      ([.failed "Failed to create work area"], some (.submit none)) :=
  (dispatch_proceeds_after_workarea_failure ⟨none, "submit"⟩ rfl).1 rfl

/-! ## Policy evaluation (`lib/detox/policy.py`)

`PolicyLine.evaluate` and `Policy.evaluate`.  Replicas and block
replicas are identified by ids; the per-line static cache
`cached_action` (a Python dict keyed by the replica object) is an
association list keyed by replica id, appended to only when the key is
absent — exactly when the code stores. -/

/-- A dataset replica as `PolicyLine.evaluate` sees it: an identity and
its `block_replicas` list (block replica ids). -/
structure ReplicaRec where
  rid : Nat
  block_replicas : List Nat
deriving DecidableEq, Repr

/-- Modelled from the spec: `ReplicaCondition` (`detox/condition.py` is
not in the repository snapshot).  Per §4.3 a condition is a pure
predicate over a replica snapshot with a static flag; for block-level
rules the spec's "set of matching BlockReplicas within `replica`" is
the subset of `replica.block_replicas` satisfying a per-block
predicate. -/
structure ReplicaCondition where
  static : Bool
  condMatch : ReplicaRec → Bool
  blockMatch : Nat → Bool

/-- `condition.get_matching_blocks(replica)`: the matching subset of
`replica.block_replicas` (modelled from the spec, see
`ReplicaCondition`). -/
def get_matching_blocks (c : ReplicaCondition) (r : ReplicaRec) : List Nat :=
  r.block_replicas.filter c.blockMatch

/-- The decision classes `eval(words[0])` can produce:
`Protect | Dismiss | Delete | ProtectBlock | DeleteBlock`. -/
inductive DecisionCls where
  | protect
  | dismiss
  | delete
  | protectBlock
  | deleteBlock
deriving DecidableEq, Repr

/-- `issubclass(decision.action_cls, BlockAction)`. -/
def isBlockCls : DecisionCls → Bool
  | .protectBlock => true
  | .deleteBlock => true
  | _ => false

/-- The tagged actions of `policy.py`; block variants carry the list of
matching block replicas, and every action records the replica and the
condition id it was built from. -/
inductive ActionRec where
  | keep (rid cid : Nat)
  | protect (rid cid : Nat)
  | dismiss (rid cid : Nat)
  | delete (rid cid : Nat)
  | protectBlock (rid cid : Nat) (block_replicas : List Nat)
  | deleteBlock (rid cid : Nat) (block_replicas : List Nat)
deriving DecidableEq, Repr

/-- `decision.action(replica, condition_id, *args)`: construct the
action of the decision's class. -/
def decisionAction : DecisionCls → Nat → Nat → List Nat → ActionRec
  | .protect, rid, cid, _ => .protect rid cid
  | .dismiss, rid, cid, _ => .dismiss rid cid
  | .delete, rid, cid, _ => .delete rid cid
  | .protectBlock, rid, cid, brs => .protectBlock rid cid brs
  | .deleteBlock, rid, cid, brs => .deleteBlock rid cid brs

/-- `ProtectBlock.dataset_level` / `DeleteBlock.dataset_level`: the
dataset-level variants of the block-level classes. -/
def datasetLevel : DecisionCls → Nat → Nat → ActionRec
  | .protectBlock, rid, cid => .protect rid cid
  | .deleteBlock, rid, cid => .delete rid cid
  | c, rid, cid => decisionAction c rid cid []

/-- A `PolicyLine`: condition, decision class, the per-replica memo
`cached_action` (consulted and filled only when the condition is
static), the history-assigned `condition_id`, and `has_match`. -/
structure PolicyLineRec where
  condition : ReplicaCondition
  decision : DecisionCls
  cached_action : List (Nat × Option ActionRec)
  condition_id : Nat
  has_match : Bool

/-- The body of `PolicyLine.evaluate` below the cache lookup: match the
condition, build the action (with block-to-dataset promotion for block
classes when *every* block replica matched, tested by length), memoize
when static.  Returns the action, the new line state, and the number
of `condition.match` invocations (always 1 here). -/
def lineEvaluateCompute (line : PolicyLineRec) (r : ReplicaRec) :
    Option ActionRec × PolicyLineRec × Nat :=
  if line.condition.condMatch r then
    let action :=
      if isBlockCls line.decision then
        let brs := get_matching_blocks line.condition r
        if brs.length = r.block_replicas.length then
          datasetLevel line.decision r.rid line.condition_id
        else
          decisionAction line.decision r.rid line.condition_id brs
      else decisionAction line.decision r.rid line.condition_id []
    let line2 :=
      if line.condition.static then
        { line with has_match := true,
                    cached_action := line.cached_action ++ [(r.rid, some action)] }
      else { line with has_match := true }
    (some action, line2, 1)
  else
    let line2 :=
      if line.condition.static then
        { line with cached_action := line.cached_action ++ [(r.rid, none)] }
      else line
    (none, line2, 1)

/-- `PolicyLine.evaluate(replica)`: when static, first try the memo
(a stored `None` is returned as a hit — Python `dict[key]` does not
raise for a `None` value). -/
def lineEvaluate (line : PolicyLineRec) (r : ReplicaRec) :
    Option ActionRec × PolicyLineRec × Nat :=
  if line.condition.static then
    match line.cached_action.find? (fun p => p.1 == r.rid) with
    | some entry => (entry.2, line, 0)
    | none => lineEvaluateCompute line r
  else lineEvaluateCompute line r

theorem filter_length_eq_iff_toFinset_eq (p : Nat → Bool) (l : List Nat) :
    (l.filter p).length = l.length ↔ (l.filter p).toFinset = l.toFinset := by
  constructor
  · intro h
    rw [(List.filter_sublist l).eq_of_length h]
  · intro h
    have hall : ∀ x ∈ l, p x = true := by
      intro x hx
      have hx2 : x ∈ (l.filter p).toFinset := by
        rw [h]
        exact List.mem_toFinset.mpr hx
      exact (List.mem_filter.mp (List.mem_toFinset.mp hx2)).2
    rw [List.filter_eq_self.mpr hall]

/-- **C3.** For a policy line whose decision class is block-level and a
replica its condition matches (and which the static memo has not yet
answered): if the set of matching block replicas equals the set of all
of the replica's block replicas, the emitted action is the dataset-
level variant (`ProtectBlock ↦ Protect`, `DeleteBlock ↦ Delete`);
otherwise the emitted action is the block-level variant carrying
exactly the matching subset.  (The code tests `len(matching) ==
len(replica.block_replicas)`; since the matching list is a sublist,
that length test is equivalent to the claim's set equality.) -/
theorem policyline_block_promotion (line : PolicyLineRec) (r : ReplicaRec)
    (hcls : line.decision = .protectBlock ∨ line.decision = .deleteBlock)
    (hmiss : line.condition.static = true →
      line.cached_action.find? (fun p => p.1 == r.rid) = none)
    (hmatch : line.condition.condMatch r = true) :
    ((get_matching_blocks line.condition r).toFinset = r.block_replicas.toFinset →
      (lineEvaluate line r).1 =
        some (datasetLevel line.decision r.rid line.condition_id)) ∧
    ((get_matching_blocks line.condition r).toFinset ≠ r.block_replicas.toFinset →
      (lineEvaluate line r).1 =
        some (decisionAction line.decision r.rid line.condition_id
          (get_matching_blocks line.condition r))) := by
  have hblk : isBlockCls line.decision = true := by
    rcases hcls with h | h <;> simp [h, isBlockCls]
  have hred : lineEvaluate line r = lineEvaluateCompute line r := by
    rw [lineEvaluate]
    by_cases hs : line.condition.static = true
    · rw [if_pos hs, hmiss hs]
    · rw [if_neg hs]
  constructor
  · intro hset
    have hlen : (get_matching_blocks line.condition r).length =
        r.block_replicas.length :=
      (filter_length_eq_iff_toFinset_eq _ _).mpr hset
    rw [hred, lineEvaluateCompute, if_pos hmatch]
    simp [hblk, hlen]
  · intro hset
    have hlen : (get_matching_blocks line.condition r).length ≠
        r.block_replicas.length := by
      intro h
      exact hset ((filter_length_eq_iff_toFinset_eq _ _).mp h)
    rw [hred, lineEvaluateCompute, if_pos hmatch]
    simp [hblk, hlen]

/-- A concrete always-true static condition, used by witnesses. -/
def condAll : ReplicaCondition := ⟨true, fun _ => true, fun _ => true⟩

/-- A concrete static condition matching only block replica 5, used by
witnesses. -/
def condBlock5 : ReplicaCondition := ⟨true, fun _ => true, fun b => b == 5⟩

/-- A concrete `DeleteBlock` policy line, used by the C3 witness. -/
def lineDeleteB5 : PolicyLineRec := ⟨condBlock5, .deleteBlock, [], 3, false⟩

/-- Witness for C3: on a replica with blocks `[5, 6]`, a `DeleteBlock`
line matching only block 5 emits the block-level action `[5]`; on a
replica with blocks `[5]` it promotes to dataset-level `Delete`. -/
theorem policyline_block_promotion_witness :
    ((lineEvaluate lineDeleteB5 ⟨1, [5]⟩).1 =
      some (datasetLevel .deleteBlock 1 3)) ∧
    ((lineEvaluate lineDeleteB5 ⟨2, [5, 6]⟩).1 =
      some (decisionAction .deleteBlock 2 3
        (get_matching_blocks condBlock5 ⟨2, [5, 6]⟩))) :=
  ⟨(policyline_block_promotion lineDeleteB5 ⟨1, [5]⟩
      (Or.inr rfl) (fun _ => rfl) rfl).1 (by rfl),
   (policyline_block_promotion lineDeleteB5 ⟨2, [5, 6]⟩
      (Or.inr rfl) (fun _ => rfl) rfl).2 (by
        intro h
        rw [Finset.ext_iff] at h
        have h6 := h 6
        simp [get_matching_blocks, lineDeleteB5, condBlock5] at h6)⟩

/-! ### `Policy.evaluate` and repeated evaluation (C4) -/

/-- A `Policy` as `Policy.evaluate` sees it: the ordered line stack and
the fall-back default decision. -/
structure PolicyRec where
  policy_lines : List PolicyLineRec
  default_decision : DecisionCls

/-- The `for line in self.policy_lines` loop of `Policy.evaluate`:
stop at the first line returning a non-null action; later lines are not
evaluated.  Returns the action (if any), the updated line stack, and
the total number of `condition.match` invocations. -/
def evalLines (r : ReplicaRec) :
    List PolicyLineRec → Option ActionRec × List PolicyLineRec × Nat
  | [] => (none, [], 0)
  | l :: ls =>
    match lineEvaluate l r with
    | (some a, l2, n) => (some a, l2 :: ls, n)
    | (none, l2, n) =>
      match evalLines r ls with
      | (act, ls2, m) => (act, l2 :: ls2, n + m)

/-- `Policy.evaluate(replica)`: first non-null line action, else the
default decision with condition id 0. -/
def policyEvaluate (p : PolicyRec) (r : ReplicaRec) :
    ActionRec × PolicyRec × Nat :=
  match evalLines r p.policy_lines with
  | (some a, ls2, n) => (a, { p with policy_lines := ls2 }, n)
  | (none, ls2, n) =>
    (decisionAction p.default_decision r.rid 0 [], { p with policy_lines := ls2 }, n)

/-- One evaluation pass of the policy over a list of replicas. -/
def evalAll (p : PolicyRec) :
    List ReplicaRec → List ActionRec × PolicyRec × Nat
  | [] => ([], p, 0)
  | r :: rs =>
    ((policyEvaluate p r).1 :: (evalAll (policyEvaluate p r).2.1 rs).1,
     (evalAll (policyEvaluate p r).2.1 rs).2.1,
     (policyEvaluate p r).2.2 + (evalAll (policyEvaluate p r).2.1 rs).2.2)

/-- The stack `ls` answers replica `r` entirely from the per-line
static memos, with outcome `o`: every consulted line is static and
holds a cached entry for `r`; a cached action stops the scan, a cached
null (the memoized no-match result) moves on to the next line. -/
inductive ScanCached (r : ReplicaRec) :
    List PolicyLineRec → Option ActionRec → Prop where
  | nil : ScanCached r [] none
  | hit (l : PolicyLineRec) (ls : List PolicyLineRec)
      (e : Nat × Option ActionRec) (a : ActionRec)
      (hs : l.condition.static = true)
      (hf : l.cached_action.find? (fun q => q.1 == r.rid) = some e)
      (he : e.2 = some a) : ScanCached r (l :: ls) (some a)
  | miss (l : PolicyLineRec) (ls : List PolicyLineRec)
      (e : Nat × Option ActionRec) (o : Option ActionRec)
      (hs : l.condition.static = true)
      (hf : l.cached_action.find? (fun q => q.1 == r.rid) = some e)
      (he : e.2 = none) (tail : ScanCached r ls o) : ScanCached r (l :: ls) o


theorem find?_append_of_some {α : Type} (p : α → Bool) (l t : List α) (e : α)
    (h : l.find? p = some e) : (l ++ t).find? p = some e := by
  rw [List.find?_append, h]
  rfl

theorem lineEvaluate_cache_extends (l : PolicyLineRec) (r : ReplicaRec) :
    (lineEvaluate l r).2.1.condition = l.condition ∧
    ∃ t, (lineEvaluate l r).2.1.cached_action = l.cached_action ++ t := by
  rw [lineEvaluate]
  by_cases hs : l.condition.static = true
  · rw [if_pos hs]
    cases hfind : l.cached_action.find? (fun q => q.1 == r.rid) with
    | some e => exact ⟨rfl, [], by simp⟩
    | none =>
      show (lineEvaluateCompute l r).2.1.condition = l.condition ∧ _
      rw [lineEvaluateCompute]
      by_cases hm : l.condition.condMatch r = true
      · rw [if_pos hm]
        simp [hs]
      · rw [if_neg hm]
        simp [hs]
  · rw [if_neg hs, lineEvaluateCompute]
    by_cases hm : l.condition.condMatch r = true
    · rw [if_pos hm]
      simp [hs]
    · rw [if_neg hm]
      simp [hs]

theorem lineEvaluate_establishes (l : PolicyLineRec) (r : ReplicaRec)
    (hs : l.condition.static = true) :
    ∃ e : Nat × Option ActionRec,
      (lineEvaluate l r).2.1.cached_action.find? (fun q => q.1 == r.rid) = some e ∧
      e.2 = (lineEvaluate l r).1 := by
  rw [lineEvaluate, if_pos hs]
  cases hfind : l.cached_action.find? (fun q => q.1 == r.rid) with
  | some e => exact ⟨e, hfind, rfl⟩
  | none =>
    show ∃ e, (lineEvaluateCompute l r).2.1.cached_action.find? _ = some e ∧
      e.2 = (lineEvaluateCompute l r).1
    rw [lineEvaluateCompute]
    by_cases hm : l.condition.condMatch r = true
    · rw [if_pos hm]
      simp only [hs, if_true]
      refine ⟨(r.rid, _), ?_, rfl⟩
      rw [List.find?_append, hfind]
      simp
    · rw [if_neg hm]
      simp only [hs, if_true]
      refine ⟨(r.rid, none), ?_, rfl⟩
      rw [List.find?_append, hfind]
      simp

theorem scanCached_evalLines (r : ReplicaRec) (ls : List PolicyLineRec)
    (o : Option ActionRec) (h : ScanCached r ls o) :
    evalLines r ls = (o, ls, 0) := by
  induction h with
  | nil => rfl
  | hit l ls e a hs hf he =>
    rw [evalLines]
    have hle : lineEvaluate l r = (some a, l, 0) := by
      rw [lineEvaluate, if_pos hs, hf]
      show (e.2, l, 0) = _
      rw [he]
    rw [hle]
  | miss l ls e o hs hf he tail ih =>
    rw [evalLines]
    have hle : lineEvaluate l r = (none, l, 0) := by
      rw [lineEvaluate, if_pos hs, hf]
      show (e.2, l, 0) = _
      rw [he]
    rw [hle, ih]

theorem evalLines_establishes (r : ReplicaRec) :
    ∀ ls : List PolicyLineRec, (∀ l ∈ ls, l.condition.static = true) →
      ScanCached r (evalLines r ls).2.1 (evalLines r ls).1 := by
  intro ls
  induction ls with
  | nil =>
    intro _
    exact ScanCached.nil
  | cons l ls ih =>
    intro hstatic
    have hls : l.condition.static = true := hstatic l (List.mem_cons_self l ls)
    obtain ⟨e, hefind, heval⟩ := lineEvaluate_establishes l r hls
    obtain ⟨hcond, -⟩ := lineEvaluate_cache_extends l r
    rw [evalLines]
    rcases hle : lineEvaluate l r with ⟨act, l2, n1⟩
    rw [hle] at hefind heval hcond
    simp only at hefind heval hcond
    cases act with
    | some a =>
      simp only
      exact ScanCached.hit l2 ls e a (by rw [hcond]; exact hls) hefind heval
    | none =>
      simp only
      have ihh := ih (fun x hx => hstatic x (List.mem_cons_of_mem l hx))
      rcases hrec : evalLines r ls with ⟨act2, ls2, m⟩
      rw [hrec] at ihh
      simp only at ihh ⊢
      exact ScanCached.miss l2 ls2 e act2 (by rw [hcond]; exact hls) hefind heval ihh

theorem scanCached_preserved (r r' : ReplicaRec) (ls : List PolicyLineRec)
    (o : Option ActionRec) (h : ScanCached r ls o) :
    ScanCached r (evalLines r' ls).2.1 o := by
  induction h with
  | nil => exact ScanCached.nil
  | hit l ls e a hs hf he =>
    obtain ⟨hcond, t, ht⟩ := lineEvaluate_cache_extends l r'
    rw [evalLines]
    rcases hle : lineEvaluate l r' with ⟨act, l2, n1⟩
    rw [hle] at hcond ht
    simp only at hcond ht
    have hf2 : l2.cached_action.find? (fun q => q.1 == r.rid) = some e := by
      rw [ht]
      exact find?_append_of_some _ _ _ _ hf
    have hs2 : l2.condition.static = true := by rw [hcond]; exact hs
    cases act with
    | some a2 =>
      simp only
      exact ScanCached.hit l2 ls e a hs2 hf2 he
    | none =>
      simp only
      rcases hrec : evalLines r' ls with ⟨act2, ls2, m⟩
      simp only
      exact ScanCached.hit l2 ls2 e a hs2 hf2 he
  | miss l ls e o hs hf he tail ih =>
    obtain ⟨hcond, t, ht⟩ := lineEvaluate_cache_extends l r'
    rw [evalLines]
    rcases hle : lineEvaluate l r' with ⟨act, l2, n1⟩
    rw [hle] at hcond ht
    simp only at hcond ht
    have hf2 : l2.cached_action.find? (fun q => q.1 == r.rid) = some e := by
      rw [ht]
      exact find?_append_of_some _ _ _ _ hf
    have hs2 : l2.condition.static = true := by rw [hcond]; exact hs
    cases act with
    | some a2 =>
      simp only
      exact ScanCached.miss l2 ls e o hs2 hf2 he tail
    | none =>
      simp only
      rcases hrec : evalLines r' ls with ⟨act2, ls2, m⟩
      rw [hrec] at ih
      simp only at ih ⊢
      exact ScanCached.miss l2 ls2 e o hs2 hf2 he ih

/-- "`p` answers `r` from cache with decision `a`": the line scan is
fully cached and `a` is the scan's outcome (or the default decision on
a fully-null scan). -/
def SettleP (p : PolicyRec) (r : ReplicaRec) (a : ActionRec) : Prop :=
  ∃ o, ScanCached r p.policy_lines o ∧
    a = (match o with
         | some x => x
         | none => decisionAction p.default_decision r.rid 0 [])

theorem settleP_evaluate (p : PolicyRec) (r : ReplicaRec) (a : ActionRec)
    (h : SettleP p r a) : policyEvaluate p r = (a, p, 0) := by
  obtain ⟨o, hscan, ha⟩ := h
  have hev := scanCached_evalLines r p.policy_lines o hscan
  rw [policyEvaluate, hev]
  cases o with
  | some x =>
    simp only at ha
    subst ha
    rfl
  | none =>
    simp only at ha
    subst ha
    rfl

theorem policyEvaluate_establishes (p : PolicyRec) (r : ReplicaRec)
    (hstatic : ∀ l ∈ p.policy_lines, l.condition.static = true) :
    SettleP (policyEvaluate p r).2.1 r (policyEvaluate p r).1 := by
  have hscan := evalLines_establishes r p.policy_lines hstatic
  rw [policyEvaluate]
  rcases hev : evalLines r p.policy_lines with ⟨o, ls1, n⟩
  rw [hev] at hscan
  simp only at hscan
  cases o with
  | some a => exact ⟨some a, hscan, rfl⟩
  | none => exact ⟨none, hscan, rfl⟩

theorem settleP_preserved (p : PolicyRec) (r r' : ReplicaRec) (a : ActionRec)
    (h : SettleP p r a) : SettleP (policyEvaluate p r').2.1 r a := by
  obtain ⟨o, hscan, ha⟩ := h
  have hpres := scanCached_preserved r r' p.policy_lines o hscan
  rw [policyEvaluate]
  rcases hev : evalLines r' p.policy_lines with ⟨o2, ls2, n⟩
  rw [hev] at hpres
  simp only at hpres
  cases o2 with
  | some x => exact ⟨o, hpres, ha⟩
  | none => exact ⟨o, hpres, ha⟩

theorem settleP_evalAll_preserved (r0 : ReplicaRec) (a : ActionRec)
    (rs : List ReplicaRec) :
    ∀ p : PolicyRec, SettleP p r0 a → SettleP (evalAll p rs).2.1 r0 a := by
  induction rs with
  | nil =>
    intro p h
    exact h
  | cons r rs ih =>
    intro p h
    have h1 : SettleP (policyEvaluate p r).2.1 r0 a := settleP_preserved p r0 r a h
    have h2 := ih (policyEvaluate p r).2.1 h1
    rw [evalAll]
    exact h2

theorem evalLines_static_preserved (r : ReplicaRec) :
    ∀ ls : List PolicyLineRec, (∀ l ∈ ls, l.condition.static = true) →
      ∀ l ∈ (evalLines r ls).2.1, l.condition.static = true := by
  intro ls
  induction ls with
  | nil =>
    intro h
    exact h
  | cons l ls ih =>
    intro hstatic
    obtain ⟨hcond, -⟩ := lineEvaluate_cache_extends l r
    rw [evalLines]
    rcases hle : lineEvaluate l r with ⟨act, l2, n1⟩
    rw [hle] at hcond
    simp only at hcond
    have hl2 : l2.condition.static = true := by
      rw [hcond]
      exact hstatic l (List.mem_cons_self l ls)
    cases act with
    | some a =>
      simp only
      intro x hx
      rcases List.mem_cons.mp hx with hx | hx
      · rw [hx]; exact hl2
      · exact hstatic x (List.mem_cons_of_mem l hx)
    | none =>
      simp only
      have iht := ih (fun x hx => hstatic x (List.mem_cons_of_mem l hx))
      rcases hrec : evalLines r ls with ⟨act2, ls2, m⟩
      rw [hrec] at iht
      simp only at iht ⊢
      intro x hx
      rcases List.mem_cons.mp hx with hx | hx
      · rw [hx]; exact hl2
      · exact iht x hx

theorem policyEvaluate_static_preserved (p : PolicyRec) (r : ReplicaRec)
    (hstatic : ∀ l ∈ p.policy_lines, l.condition.static = true) :
    ∀ l ∈ (policyEvaluate p r).2.1.policy_lines, l.condition.static = true := by
  have hp := evalLines_static_preserved r p.policy_lines hstatic
  rw [policyEvaluate]
  rcases hev : evalLines r p.policy_lines with ⟨o, ls1, n⟩
  rw [hev] at hp
  simp only at hp
  cases o with
  | some a => exact hp
  | none => exact hp

theorem evalAll_settles (rs : List ReplicaRec) :
    ∀ p : PolicyRec, (∀ l ∈ p.policy_lines, l.condition.static = true) →
      List.Forall₂ (fun r a => SettleP (evalAll p rs).2.1 r a) rs (evalAll p rs).1 := by
  induction rs with
  | nil =>
    intro p _
    exact List.Forall₂.nil
  | cons r rs ih =>
    intro p hstatic
    have h1 : SettleP (policyEvaluate p r).2.1 r (policyEvaluate p r).1 :=
      policyEvaluate_establishes p r hstatic
    have h2 := settleP_evalAll_preserved r (policyEvaluate p r).1 rs
      (policyEvaluate p r).2.1 h1
    have hst1 := policyEvaluate_static_preserved p r hstatic
    have ht := ih (policyEvaluate p r).2.1 hst1
    rw [evalAll]
    exact List.Forall₂.cons h2 ht

theorem evalAll_cached_pass (p1 : PolicyRec) (rs : List ReplicaRec)
    (ds : List ActionRec)
    (h : List.Forall₂ (fun r a => SettleP p1 r a) rs ds) :
    evalAll p1 rs = (ds, p1, 0) := by
  induction h with
  | nil => rfl
  | @cons r0 a0 rs0 ds0 hrel htail ih =>
    rw [evalAll, settleP_evaluate _ _ _ hrel]
    simp [ih]

/-- **C4.** For a policy all of whose lines are static, evaluating the
same (unchanged) replicas a second time produces the identical
decision list, leaves every line state unchanged, and invokes
`condition.match` zero times: every line consulted in the second pass —
including lines whose memo holds the null no-match result — is
answered from the per-replica cache filled during the first pass. -/
theorem policy_static_reevaluation (p : PolicyRec) (rs : List ReplicaRec)
    (hstatic : ∀ l ∈ p.policy_lines, l.condition.static = true)
    (d1 : List ActionRec) (p1 : PolicyRec) (n1 : Nat)
    (h1 : evalAll p rs = (d1, p1, n1)) :
    evalAll p1 rs = (d1, p1, 0) := by
  have hs := evalAll_settles rs p hstatic
  rw [h1] at hs
  simp only at hs
  exact evalAll_cached_pass p1 rs d1 hs

/-- A one-line static policy, used by the C4 witness. -/
def policyW : PolicyRec := ⟨[⟨condAll, .protect, [], 7, false⟩], .dismiss⟩

/-- `policyW` after its first evaluation pass over replica 1: the
line's memo now holds the computed `Protect` action. -/
def policyW1 : PolicyRec :=
  ⟨[⟨condAll, .protect, [(1, some (.protect 1 7))], 7, true⟩], .dismiss⟩

/-- Witness for C4: the concrete one-line static policy re-evaluated on
replica 1 returns the same decision with zero match invocations. -/
theorem policy_static_reevaluation_witness :
    evalAll policyW1 [⟨1, [5]⟩] = ([.protect 1 7], policyW1, 0) :=
  policy_static_reevaluation policyW [⟨1, [5]⟩] (by decide)
    [.protect 1 7] policyW1 1 rfl


/-! ## Lock-source aggregation (`lib/policy/producers/weblock.py`)

`WebReplicaLock.update`: datasets carry a `locked_blocks` attribute
mapping a site to `None` (dataset-level lock) or to a set of locked
blocks.  The attribute dictionary is an association list; sites,
datasets and blocks are identified by name. -/

/-- The value of `dataset.attr['locked_blocks']`: site name to `None`
(dataset-level lock) or to a set of block names. -/
abbrev LockedBlocks := List (String × Option (Finset String))

/-- Python dict read on `locked_blocks` (`none` when the key is
absent). -/
def dictGet : LockedBlocks → String → Option (Option (Finset String))
  | [], _ => none
  | q :: d, k => if q.1 == k then some q.2 else dictGet d k

/-- Python dict write `locked_blocks[site] = v`. -/
def dictSet : LockedBlocks → String → Option (Finset String) → LockedBlocks
  | [], k, v => [(k, v)]
  | q :: d, k, v => if q.1 == k then (k, v) :: d else q :: dictSet d k v

/-- A dataset as `WebReplicaLock.update` sees it: its name, the sites
of its replicas, its block names, and the `locked_blocks` attribute
(`none` when absent from `dataset.attr`). -/
structure DatasetL where
  name : String
  replicaSites : List String
  blocks : List String
  lockedBlocks : Option LockedBlocks
deriving DecidableEq

/-- The inventory as the lock aggregator sees it. -/
structure InventoryL where
  datasets : List DatasetL
  sites : List String
deriving DecidableEq

/-- `inventory.datasets[name]` (`none` for `KeyError`). -/
def findDatasetL (inv : InventoryL) (dname : String) : Option DatasetL :=
  inv.datasets.find? (fun ds => ds.name == dname)

/-- Mutation of the dataset registered under `dname`. -/
def updateDatasetL (inv : InventoryL) (dname : String)
    (f : DatasetL → DatasetL) : InventoryL :=
  { inv with
    datasets := inv.datasets.map (fun ds => if ds.name == dname then f ds else ds) }

/-- The clearing loop at the top of `WebReplicaLock.update`:
`dataset.attr.pop('locked_blocks')` on every dataset of the
inventory. -/
def clearLocks (inv : InventoryL) : InventoryL :=
  { inv with
    datasets := inv.datasets.map (fun ds => { ds with lockedBlocks := none }) }

/-- `site_re is None or site_re.match(replica.site.name)`: whether the
replica site passes the source's site pattern. -/
def patOk (pat : Option (String → Bool)) (site : String) : Bool :=
  match pat with
  | none => true
  | some p => p site

/-- The `for replica in dataset.replicas` loop of the list-of-datasets
branch: set `locked_blocks[replica.site] = None` for every replica
site passing the pattern. -/
def lockSites (pat : Option (String → Bool)) (sites : List String)
    (lb : LockedBlocks) : LockedBlocks :=
  sites.foldl (fun lb site =>
    if patOk pat site then dictSet lb site none else lb) lb

/-- One dataset name from a `LIST_OF_DATASETS` (or
`CMSWEB_LIST_OF_DATASETS`) source: `None` entries and unknown datasets
are skipped; otherwise `locked_blocks` is created if absent and every
replica site passing the site pattern is set to `None` (lines 86-106
of `weblock.py`). -/
def applyListItem (pat : Option (String → Bool)) (inv : InventoryL)
    (odn : Option String) : InventoryL :=
  match odn with
  | none => inv
  | some dn =>
    match findDatasetL inv dn with
    | none => inv
    | some _ =>
      updateDatasetL inv dn (fun ds =>
        { ds with
          lockedBlocks :=
            some (lockSites pat ds.replicaSites (ds.lockedBlocks.getD [])) })

/-- A whole `LIST_OF_DATASETS` source body. -/
def applyListSource (pat : Option (String → Bool)) (inv : InventoryL)
    (data : List (Option String)) : InventoryL :=
  data.foldl (applyListItem pat) inv

/-- Split a name at its first `#`, if any. -/
def splitAtHash : List Char → Option (List Char × List Char)
  | [] => none
  | c :: rest =>
    if c = '#' then some ([], rest)
    else
      match splitAtHash rest with
      | none => none
      | some (pre, post) => some (c :: pre, post)

/-- Modelled from the spec: `Block.from_full_name` (`_namespace.py` is
not in the snapshot).  Per the spec an object is "either a dataset
name or a full `dataset#block` name"; without a `#` the `ObjectError`
is caught and the entry is dataset-level. -/
def fromFullName (objectName : String) : String × Option String :=
  match splitAtHash objectName.toList with
  | none => (objectName, none)
  | some (pre, post) => (String.mk pre, some (String.mk post))

/-- One `(object_name, lock)` entry for site `siteName` of a
`SITE_TO_DATASETS` source (lines 141-180 of `weblock.py`): unlocked
entries, unknown datasets, missing replicas and unknown blocks are
skipped; a dataset-level entry sets `locked_blocks[site] = None`; a
block-level entry adds the block to the set at `locked_blocks[site]`,
replacing an absent or `None` value by a fresh singleton set. -/
def applySiteObject (inv : InventoryL) (siteName : String)
    (objectName : String) (lock : Bool) : InventoryL :=
  if !lock then inv
  else
    match findDatasetL inv (fromFullName objectName).1 with
    | none => inv
    | some ds0 =>
      if siteName ∈ ds0.replicaSites then
        match (fromFullName objectName).2 with
        | none =>
          updateDatasetL inv (fromFullName objectName).1 (fun ds =>
            { ds with
              lockedBlocks :=
                some (dictSet (ds.lockedBlocks.getD []) siteName none) })
        | some bname =>
          if bname ∈ ds0.blocks then
            updateDatasetL inv (fromFullName objectName).1 (fun ds =>
              { ds with
                lockedBlocks :=
                  some (match dictGet (ds.lockedBlocks.getD []) siteName with
                        | some (some s) =>
                          dictSet (ds.lockedBlocks.getD []) siteName
                            (some (insert bname s))
                        | _ =>
                          dictSet (ds.lockedBlocks.getD []) siteName
                            (some {bname})) })
          else inv
      else inv

/-- A whole `SITE_TO_DATASETS` source body: per listed site (unknown
sites skipped), process each object entry in order. -/
def applySiteSource (inv : InventoryL)
    (data : List (String × List (String × Bool))) : InventoryL :=
  data.foldl (fun acc entry =>
    if entry.1 ∈ acc.sites then
      entry.2.foldl (fun a ob => applySiteObject a entry.1 ob.1 ob.2) acc
    else acc) inv

theorem dictGet_dictSet (d : LockedBlocks) (k k' : String)
    (v : Option (Finset String)) :
    dictGet (dictSet d k v) k' = if k' = k then some v else dictGet d k' := by
  induction d with
  | nil =>
    by_cases h : k' = k
    · subst h
      simp [dictSet, dictGet]
    · simp [dictSet, dictGet, h, Ne.symm h]
  | cons q d ih =>
    rw [dictSet]
    by_cases hq : (q.1 == k) = true
    · rw [if_pos hq]
      have hq' : q.1 = k := by simpa using hq
      by_cases h : k' = k
      · subst h
        simp [dictGet]
      · simp [dictGet, h, Ne.symm h, hq']
    · rw [if_neg hq]
      have hq' : ¬ q.1 = k := by simpa using hq
      by_cases hqk : q.1 = k'
      · have hne : ¬ k' = k := fun hc => hq' (hqk.trans hc)
        simp [dictGet, hqk, hne]
      · simp [dictGet, hqk, ih]

theorem lockSites_none_stable (pat : Option (String → Bool))
    (sites : List String) :
    ∀ lb site, dictGet lb site = some none →
      dictGet (lockSites pat sites lb) site = some none := by
  induction sites with
  | nil =>
    intro lb site h
    exact h
  | cons s sites ih =>
    intro lb site h
    rw [lockSites, List.foldl_cons]
    by_cases hp : patOk pat s = true
    · rw [if_pos hp]
      refine ih (dictSet lb s none) site ?_
      rw [dictGet_dictSet]
      by_cases hs : site = s
      · rw [if_pos hs]
      · rw [if_neg hs]
        exact h
    · rw [if_neg hp]
      exact ih lb site h

theorem lockSites_locks (pat : Option (String → Bool))
    (sites : List String) :
    ∀ lb site, site ∈ sites → patOk pat site = true →
      dictGet (lockSites pat sites lb) site = some none := by
  induction sites with
  | nil =>
    intro lb site h
    exact absurd h (List.not_mem_nil site)
  | cons s sites ih =>
    intro lb site hmem hpat
    rw [lockSites, List.foldl_cons]
    rcases List.mem_cons.mp hmem with hs | hs
    · subst hs
      rw [if_pos hpat]
      exact lockSites_none_stable pat sites _ site
        (by rw [dictGet_dictSet, if_pos rfl])
    · by_cases hp : patOk pat s = true
      · rw [if_pos hp]
        exact ih (dictSet lb s none) site hs hpat
      · rw [if_neg hp]
        exact ih lb site hs hpat

theorem findDatasetL_update (inv : InventoryL) (dn : String)
    (f : DatasetL → DatasetL) (hf : ∀ ds, (f ds).name = ds.name) :
    findDatasetL (updateDatasetL inv dn f) dn = (findDatasetL inv dn).map
      (fun ds => if ds.name == dn then f ds else ds) := by
  rw [findDatasetL, updateDatasetL]
  refine find?_map_of_pred_preserved _ _ (fun ds => ?_) inv.datasets
  by_cases h : (ds.name == dn) = true
  · simp only [if_pos h, hf]
  · simp only [if_neg h]

/-- **C8.** On a lock-aggregator update: (1) the clearing phase removes
the `locked_blocks` attribute from every dataset of the inventory;
(2) a dataset-level lock from a list-of-datasets source sets
`locked_blocks[S] = None` on every replica site `S` passing the site
pattern; (3) a dataset-level entry of a site-to-datasets source sets
`locked_blocks[S] = None` at its site; (4) a block-level entry adds the
block to the set stored at `locked_blocks[S]` (extending an existing
set, or creating a fresh singleton when the slot is absent or holds
the dataset-level `None`). -/
theorem weblock_lock_semantics (inv : InventoryL) :
    (∀ ds ∈ (clearLocks inv).datasets, ds.lockedBlocks = none) ∧
    (∀ pat dn ds0, findDatasetL inv dn = some ds0 →
      ∃ lb, findDatasetL (applyListItem pat inv (some dn)) dn =
          some { ds0 with lockedBlocks := some lb } ∧
        ∀ site ∈ ds0.replicaSites, patOk pat site = true →
          dictGet lb site = some none) ∧
    (∀ siteName obj dn ds0, fromFullName obj = (dn, none) →
      findDatasetL inv dn = some ds0 → siteName ∈ ds0.replicaSites →
      ∃ lb, findDatasetL (applySiteObject inv siteName obj true) dn =
          some { ds0 with lockedBlocks := some lb } ∧
        dictGet lb siteName = some none) ∧
    (∀ siteName obj dn bn ds0, fromFullName obj = (dn, some bn) →
      findDatasetL inv dn = some ds0 → siteName ∈ ds0.replicaSites →
      bn ∈ ds0.blocks →
      ∃ lb s2, findDatasetL (applySiteObject inv siteName obj true) dn =
          some { ds0 with lockedBlocks := some lb } ∧
        dictGet lb siteName = some (some s2) ∧ bn ∈ s2 ∧
        (∀ s, dictGet (ds0.lockedBlocks.getD []) siteName = some (some s) →
          s2 = insert bn s) ∧
        ((dictGet (ds0.lockedBlocks.getD []) siteName = none ∨
          dictGet (ds0.lockedBlocks.getD []) siteName = some none) →
          s2 = {bn})) := by
  refine ⟨?_, ?_, ?_, ?_⟩
  · intro ds hds
    obtain ⟨ds0, -, rfl⟩ := List.mem_map.mp hds
    rfl
  · intro pat dn ds0 hfind
    have hname : (ds0.name == dn) = true := by
      simpa using List.find?_some hfind
    refine ⟨lockSites pat ds0.replicaSites (ds0.lockedBlocks.getD []), ?_, ?_⟩
    · have hred : applyListItem pat inv (some dn) =
          updateDatasetL inv dn (fun ds =>
            { ds with
              lockedBlocks :=
                some (lockSites pat ds.replicaSites (ds.lockedBlocks.getD [])) }) := by
        rw [applyListItem, hfind]
      rw [hred, findDatasetL_update inv dn (fun ds =>
          { ds with
            lockedBlocks :=
              some (lockSites pat ds.replicaSites (ds.lockedBlocks.getD [])) })
        (fun ds => rfl), hfind]
      simp [hname]
      intro hc
      exact absurd (show ds0.name = dn by simpa using hname) hc
    · intro site hsite hpat
      exact lockSites_locks pat ds0.replicaSites _ site hsite hpat
  · intro siteName obj dn ds0 hfrom hfind hsite
    have hname : (ds0.name == dn) = true := by
      simpa using List.find?_some hfind
    refine ⟨dictSet (ds0.lockedBlocks.getD []) siteName none, ?_, ?_⟩
    · rw [applySiteObject]
      simp only [Bool.not_true, Bool.false_eq_true, if_false, hfrom, hfind,
        if_pos hsite]
      rw [findDatasetL_update inv dn (fun ds =>
          { ds with
            lockedBlocks :=
              some (dictSet (ds.lockedBlocks.getD []) siteName none) })
        (fun ds => rfl), hfind]
      simp [hname]
      intro hc
      exact absurd (show ds0.name = dn by simpa using hname) hc
    · rw [dictGet_dictSet, if_pos rfl]
  · intro siteName obj dn bn ds0 hfrom hfind hsite hblk
    have hname : (ds0.name == dn) = true := by
      simpa using List.find?_some hfind
    have hupd : findDatasetL (applySiteObject inv siteName obj true) dn =
        some { ds0 with
               lockedBlocks :=
                 some (match dictGet (ds0.lockedBlocks.getD []) siteName with
                       | some (some s) =>
                         dictSet (ds0.lockedBlocks.getD []) siteName
                           (some (insert bn s))
                       | _ =>
                         dictSet (ds0.lockedBlocks.getD []) siteName
                           (some {bn})) } := by
      rw [applySiteObject]
      simp only [Bool.not_true, Bool.false_eq_true, if_false, hfrom, hfind,
        if_pos hsite, if_pos hblk]
      rw [findDatasetL_update inv dn (fun ds =>
          { ds with
            lockedBlocks :=
              some (match dictGet (ds.lockedBlocks.getD []) siteName with
                    | some (some s) =>
                      dictSet (ds.lockedBlocks.getD []) siteName
                        (some (insert bn s))
                    | _ =>
                      dictSet (ds.lockedBlocks.getD []) siteName
                        (some {bn})) })
        (fun ds => rfl), hfind]
      simp [hname]
      intro hc
      exact absurd (show ds0.name = dn by simpa using hname) hc
    cases hget : dictGet (ds0.lockedBlocks.getD []) siteName with
    | some os =>
      cases os with
      | some s =>
        rw [hget] at hupd
        refine ⟨_, insert bn s, hupd, ?_, ?_, ?_, ?_⟩
        · rw [dictGet_dictSet, if_pos rfl]
        · exact Finset.mem_insert_self bn s
        · intro s' hs'
          cases hs'
          rfl
        · intro hcase
          rcases hcase with hc | hc <;> simp at hc
      | none =>
        rw [hget] at hupd
        refine ⟨_, {bn}, hupd, ?_, ?_, ?_, ?_⟩
        · rw [dictGet_dictSet, if_pos rfl]
        · exact Finset.mem_singleton_self bn
        · intro s' hs'
          simp at hs'
        · intro _
          rfl
    | none =>
      rw [hget] at hupd
      refine ⟨_, {bn}, hupd, ?_, ?_, ?_, ?_⟩
      · rw [dictGet_dictSet, if_pos rfl]
      · exact Finset.mem_singleton_self bn
      · intro s' hs'
        simp at hs'
      · intro _
        rfl

/-- The concrete inventory of the C8 witness: one dataset `/d` with
replicas at `S1` and `S2` and one block `b1`. -/
def invW : InventoryL := ⟨[⟨"/d", ["S1", "S2"], ["b1"], none⟩], ["S1", "S2"]⟩

/-- The dataset of `invW`. -/
def dsW : DatasetL := ⟨"/d", ["S1", "S2"], ["b1"], none⟩

/-- Witness for C8 at `invW`: a list-source dataset lock, a site-source
dataset-level lock, and a site-source block-level lock each behave as
stated. -/
theorem weblock_lock_semantics_witness :
    (∃ lb, findDatasetL (applyListItem none invW (some "/d")) "/d" =
        some { dsW with lockedBlocks := some lb } ∧
      ∀ site ∈ dsW.replicaSites, patOk none site = true →
        dictGet lb site = some none) ∧
    (∃ lb, findDatasetL (applySiteObject invW "S1" "/d" true) "/d" =
        some { dsW with lockedBlocks := some lb } ∧
      dictGet lb "S1" = some none) ∧
    (∃ lb s2, findDatasetL (applySiteObject invW "S1" "/d#b1" true) "/d" =
        some { dsW with lockedBlocks := some lb } ∧
      dictGet lb "S1" = some (some s2) ∧ "b1" ∈ s2 ∧
      (∀ s, dictGet (dsW.lockedBlocks.getD []) "S1" = some (some s) →
        s2 = insert "b1" s) ∧
      ((dictGet (dsW.lockedBlocks.getD []) "S1" = none ∨
        dictGet (dsW.lockedBlocks.getD []) "S1" = some none) →
        s2 = {"b1"})) :=
  ⟨(weblock_lock_semantics invW).2.1 none "/d" dsW rfl,
   (weblock_lock_semantics invW).2.2.1 "S1" "/d" "/d" dsW (by decide) rfl
     (by decide),
   (weblock_lock_semantics invW).2.2.2 "S1" "/d#b1" "/d" "b1" dsW (by decide)
     rfl (by decide) (by decide)⟩

/-! ## Policy text parsing (`Policy.parse_lines`, `lib/detox/policy.py`)

The parser is embedded over kernel-computable string primitives
(`pythonStrip` for `str.strip()`, `pythonSplitWords` for
`str.split()`).  The error type separates `ConfigurationError` from
Python's built-in exceptions (`IndexError` from `words[0]` /
`words[iw + 1]`, `KeyError` from `replica_vardefs[varname]`). -/

/-- Python `str.strip()`: drop leading and trailing whitespace. -/
def pythonStrip (s : String) : String :=
  String.mk
    (((s.toList.dropWhile Char.isWhitespace).reverse.dropWhile
        Char.isWhitespace).reverse)

/-- Accumulator pass behind `pythonSplitWords`. -/
def splitWordsAux : List Char → List Char → List String
  | [], acc => if acc.isEmpty then [] else [String.mk acc.reverse]
  | c :: rest, acc =>
    if c.isWhitespace then
      if acc.isEmpty then splitWordsAux rest []
      else String.mk acc.reverse :: splitWordsAux rest []
    else splitWordsAux rest (c :: acc)

/-- Python `str.split()` with no arguments: split on whitespace runs,
dropping empty fields. -/
def pythonSplitWords (s : String) : List String :=
  splitWordsAux s.toList []

/-- `line.startswith('#')`. -/
def startsWithHash (s : String) : Bool :=
  match s.toList with
  | c :: _ => c = '#'
  | [] => false

/-- The exceptions `parse_lines` can raise: `ConfigurationError` with
its message, or a built-in `IndexError`/`KeyError`. -/
inductive PError where
  | config (msg : String)
  | indexError
  | keyError
deriving DecidableEq, Repr

/-- Modelled from the spec: the variable value types of
`detox/variables.py` (NUMERIC, TIME, TEXT, BOOL per §4.3). -/
inductive VarType where
  | numeric
  | time
  | text
  | bool
deriving DecidableEq, Repr

/-- Modelled from the spec: `SiteCondition(cond_text, partition)` — a
parsed site condition; `parse_lines` only stores it, so the model
keeps the text and the partition it was built for. -/
structure SiteCondW where
  text : String
  partitionName : String
deriving DecidableEq, Repr

/-- Modelled from the spec: the pieces of `detox/variables.py` and
`detox/condition.py` that `parse_lines` consults —
`replica_vardefs` (variable name to value type), `required_plugins`
(plugin to the variable expressions needing it), and per condition
text its static flag and demand plugins. -/
structure CondEnv where
  vardefs : String → Option VarType
  requiredPlugins : List (String × List String)
  condStatic : String → Bool
  condPlugins : String → List String

/-- `eval(words[0])` for policy lines: the decision class named by the
keyword, if any. -/
def keywordDecision : String → Option DecisionCls
  | "Protect" => some .protect
  | "Dismiss" => some .dismiss
  | "Delete" => some .delete
  | "ProtectBlock" => some .protectBlock
  | "DeleteBlock" => some .deleteBlock
  | _ => none

/-- The mutable parse state built up by the `for line in lines` loop of
`parse_lines`. -/
structure PState where
  target_site_def : Option SiteCondW
  deletion_trigger : Option SiteCondW
  stop_condition : Option SiteCondW
  policy_lines : List (DecisionCls × String)
  default_decision : Option DecisionCls
  candidate_sort_key : Option (List (Bool × String))
  used_demand_plugins : List String
deriving DecidableEq, Repr

/-- The initial parse state (`None`/empty fields). -/
def initPState : PState := ⟨none, none, none, [], none, none, []⟩

/-- The `while iw < len(words)` loop of the `Order` branch: a `none`
direction token stops; `increasing`/`decreasing` pick the sign, any
other token is a `ConfigurationError`; a missing variable name raises
`IndexError`; an unknown variable raises `KeyError`; a non-numeric,
non-time variable is a `ConfigurationError`. -/
def parseOrderTail (env : CondEnv) (line w1 : String) :
    List String → PState → Except PError PState
  | [], st => .ok st
  | dir :: rest, st =>
    if dir = "none" then .ok st
    else
      match (if dir = "increasing" then some false
             else if dir = "decreasing" then some true else none) with
      | none => .error (.config ("Invalid sorting order: " ++ w1))
      | some reverse =>
        match rest with
        | [] => .error .indexError
        | varname :: rest2 =>
          let plugins := (env.requiredPlugins.filter
            (fun pr => varname ∈ pr.2)).map Prod.fst
          let st1 :=
            { st with used_demand_plugins := st.used_demand_plugins ++ plugins }
          match env.vardefs varname with
          | none => .error .keyError
          | some ty =>
            if ty ≠ .numeric ∧ ty ≠ .time then
              .error (.config ("Cannot use non-numeric type to sort: " ++ line))
            else
              parseOrderTail env line w1 rest2
                { st1 with
                  candidate_sort_key :=
                    some ((st1.candidate_sort_key.getD []) ++
                      [(reverse, varname)]) }

/-- One iteration of the `for line in lines` loop of `parse_lines`:
split into words (`words[0]` on an empty split raises `IndexError`),
classify the keyword (unknown keywords are a `ConfigurationError`
quoting the line), handle the one-word default-decision form, then
dispatch to the `Order` loop or store the condition. -/
def parseLine (env : CondEnv) (partitionName line : String)
    (st : PState) : Except PError PState :=
  match pythonSplitWords line with
  | [] => .error .indexError
  | w0 :: wrest =>
    if w0 ≠ "On" ∧ w0 ≠ "When" ∧ w0 ≠ "Until" ∧ w0 ≠ "Order" ∧
        keywordDecision w0 = none then
      .error (.config line)
    else if wrest = [] then
      match keywordDecision w0 with
      | some dec => .ok { st with default_decision := some dec }
      | none => .error (.config line)
    else if w0 = "Order" then
      parseOrderTail env line (wrest.headD "") wrest st
    else
      let cond_text := String.intercalate " " wrest
      if w0 = "On" then
        .ok { st with target_site_def := some ⟨cond_text, partitionName⟩ }
      else if w0 = "When" then
        .ok { st with deletion_trigger := some ⟨cond_text, partitionName⟩ }
      else if w0 = "Until" then
        .ok { st with stop_condition := some ⟨cond_text, partitionName⟩ }
      else
        match keywordDecision w0 with
        | some dec =>
          .ok { st with policy_lines := st.policy_lines ++ [(dec, cond_text)] }
        | none => .error (.config line)

/-- The whole `for line in lines` loop. -/
def lineLoop (env : CondEnv) (partitionName : String) :
    List String → PState → Except PError PState
  | [], st => .ok st
  | l :: ls, st =>
    match parseLine env partitionName l st with
    | .error e => .error e
    | .ok st1 => lineLoop env partitionName ls st1

/-- The policy object `parse_lines` leaves behind on success. -/
structure ParsedPolicy where
  target_site_def : SiteCondW
  deletion_trigger : SiteCondW
  stop_condition : SiteCondW
  policy_lines : List (DecisionCls × String)
  default_decision : DecisionCls
  candidate_sort_key : Option (List (Bool × String))
  used_demand_plugins : List String
  need_iteration : Bool
deriving DecidableEq, Repr

/-- The checks and derived fields after the line loop: missing target
site definition, deletion trigger / stop condition, or default
decision each raise `ConfigurationError`; then the demand plugins of
all conditions are accumulated and `need_iteration` is set when some
line is dynamic or block-level. -/
def finalChecks (env : CondEnv) (st : PState) : Except PError ParsedPolicy :=
  match st.target_site_def with
  | none => .error (.config "Target site definition missing.")
  | some tgt =>
    match st.deletion_trigger, st.stop_condition with
    | some trg, some stp =>
      (match st.default_decision with
       | none => .error (.config "Default decision not given.")
       | some dflt =>
         .ok ⟨tgt, trg, stp, st.policy_lines, dflt, st.candidate_sort_key,
           st.used_demand_plugins ++ env.condPlugins tgt.text ++
             env.condPlugins trg.text ++ env.condPlugins stp.text ++
             (st.policy_lines.map (fun pl => env.condPlugins pl.2)).flatten,
           st.policy_lines.any
             (fun pl => !(env.condStatic pl.2) || isBlockCls pl.1)⟩)
    | _, _ => .error (.config "Deletion trigger and release expressions are missing.")

/-- The two input shapes `parse_lines` accepts: a file object (whose
content is split at newlines into raw lines) or an already-split list
of strings. -/
inductive PolicyInput where
  | fileInput (rawLines : List String)
  | listInput (lines : List String)
deriving DecidableEq, Repr

/-- The `type(lines) is file` preprocessing: strip every raw line,
then drop blank lines and lines starting with `#`.  A list input is
used as is. -/
def inputLines : PolicyInput → List String
  | .fileInput raw =>
    (raw.map pythonStrip).filter (fun l => !((l == "") || startsWithHash l))
  | .listInput ls => ls

/-- `Policy.parse_lines(lines, inventory)`. -/
def parse_lines (env : CondEnv) (partitionName : String)
    (input : PolicyInput) : Except PError ParsedPolicy :=
  match lineLoop env partitionName (inputLines input) initPState with
  | .error e => .error e
  | .ok st => finalChecks env st

/-- The condition environment used by concrete parse examples. -/
def envW : CondEnv :=
  ⟨fun v => if v = "replica_size" then some .numeric else none, [],
   fun _ => true, fun _ => []⟩

/-- **C9 counterexample.** The claim quantifies over *every* input to
the parser, but blank and comment lines are stripped only when the
input is a file object: in a list input, a blank line raises
`IndexError` (from `words[0]` on an empty split) — not a
`ConfigurationError` and not ignored — while the same input without
the blank line parses; and a comment line raises `ConfigurationError`
quoting the comment instead of being ignored. -/
theorem parse_lines_list_input_not_ignored :
    parse_lines envW "p"
      (.listInput ["", "On x", "When x", "Until x", "Dismiss"]) =
      .error .indexError ∧
    (∃ pol, parse_lines envW "p"
      (.listInput ["On x", "When x", "Until x", "Dismiss"]) = .ok pol) ∧
    parse_lines envW "p" (.listInput ["# comment", "On x"]) =
      .error (.config "# comment") :=
  ⟨rfl, ⟨_, rfl⟩, rfl⟩

/-- The line loop processes an appended list by running the first part
and, when it raises nothing, continuing on the second from the
resulting state: the loop stops at the first erroneous line. -/
theorem lineLoop_append (env : CondEnv) (pn : String) :
    ∀ (xs ys : List String) (st : PState),
      lineLoop env pn (xs ++ ys) st =
        match lineLoop env pn xs st with
        | .error e => .error e
        | .ok st1 => lineLoop env pn ys st1 := by
  intro xs
  induction xs with
  | nil =>
    intro ys st
    rfl
  | cons x xs ih =>
    intro ys st
    simp only [List.cons_append, lineLoop]
    cases parseLine env pn x st with
    | error e => rfl
    | ok st1 => exact ih ys st1

/-- **C9 (amended).** For *file* inputs: comment lines (stripping to a
`#`-prefixed string) and blank lines are ignored; a line at *any*
position that is neither comment, blank, nor a recognized keyword
form fails parsing with a `ConfigurationError` quoting the (stripped)
line, provided the preceding lines raise nothing — the loop stops at
the first erroneous line, so only that proviso is possible; and
whenever the line loop completes with the target site definition, the
deletion trigger, the stop condition, or the default decision absent,
parsing fails with a `ConfigurationError`.  (List inputs are *not*
pre-stripped: there a blank line raises `IndexError` and a comment
line `ConfigurationError`.) -/
theorem parse_lines_file_semantics :
    (∀ (env : CondEnv) (pn : String) (pre post : List String) (c : String),
      (pythonStrip c == "") = true ∨ startsWithHash (pythonStrip c) = true →
      parse_lines env pn (.fileInput (pre ++ c :: post)) =
        parse_lines env pn (.fileInput (pre ++ post))) ∧
    (∀ (env : CondEnv) (pn : String) (pre : List String) (l : String)
        (post : List String) (st : PState) (w0 : String) (ws : List String),
      lineLoop env pn (inputLines (.fileInput pre)) initPState = .ok st →
      pythonSplitWords (pythonStrip l) = w0 :: ws →
      (pythonStrip l == "") = false → startsWithHash (pythonStrip l) = false →
      w0 ≠ "On" → w0 ≠ "When" → w0 ≠ "Until" → w0 ≠ "Order" →
      keywordDecision w0 = none →
      parse_lines env pn (.fileInput (pre ++ l :: post)) =
        .error (.config (pythonStrip l))) ∧
    (∀ (env : CondEnv) (pn : String) (input : PolicyInput) (st : PState),
      lineLoop env pn (inputLines input) initPState = .ok st →
      st.target_site_def = none ∨ st.deletion_trigger = none ∨
        st.stop_condition = none ∨ st.default_decision = none →
      ∃ msg, parse_lines env pn input = .error (.config msg)) := by
  refine ⟨?_, ?_, ?_⟩
  · intro env pn pre post c hc
    have hdrop : (!((pythonStrip c == "") || startsWithHash (pythonStrip c)))
        = false := by
      rcases hc with h | h <;> simp [h]
    have hlines : inputLines (.fileInput (pre ++ c :: post)) =
        inputLines (.fileInput (pre ++ post)) := by
      simp only [inputLines, List.map_append, List.map_cons,
        List.filter_append, List.filter_cons, hdrop]
      simp
    simp only [parse_lines, hlines]
  · intro env pn pre l post st w0 ws hpre hsplit hne hnh h1 h2 h3 h4 h5
    have hkeep : (!((pythonStrip l == "") || startsWithHash (pythonStrip l)))
        = true := by
      simp [hne, hnh]
    have hlines : inputLines (.fileInput (pre ++ l :: post)) =
        inputLines (.fileInput pre) ++
          pythonStrip l :: inputLines (.fileInput post) := by
      simp only [inputLines, List.map_append, List.map_cons,
        List.filter_append, List.filter_cons, hkeep]
      simp
    have hline : parseLine env pn (pythonStrip l) st =
        .error (.config (pythonStrip l)) := by
      rw [parseLine, hsplit]
      exact if_pos ⟨h1, h2, h3, h4, h5⟩
    have hloop : lineLoop env pn
        (inputLines (.fileInput (pre ++ l :: post))) initPState =
        .error (.config (pythonStrip l)) := by
      rw [hlines, lineLoop_append, hpre]
      show lineLoop env pn (pythonStrip l :: inputLines (.fileInput post)) st =
        .error (.config (pythonStrip l))
      rw [lineLoop, hline]
    rw [parse_lines, hloop]
  · intro env pn input st hloop hmiss
    have hred : parse_lines env pn input = finalChecks env st := by
      rw [parse_lines, hloop]
    rw [hred, finalChecks]
    rcases hmiss with h | h | h | h
    · rw [h]
      exact ⟨_, rfl⟩
    · cases htgt : st.target_site_def with
      | none => exact ⟨_, rfl⟩
      | some tgt =>
        rw [h]
        exact ⟨_, rfl⟩
    · cases htgt : st.target_site_def with
      | none => exact ⟨_, rfl⟩
      | some tgt =>
        cases htrg : st.deletion_trigger with
        | none => exact ⟨_, rfl⟩
        | some trg =>
          rw [h]
          exact ⟨_, rfl⟩
    · cases htgt : st.target_site_def with
      | none => exact ⟨_, rfl⟩
      | some tgt =>
        cases htrg : st.deletion_trigger with
        | none => exact ⟨_, rfl⟩
        | some trg =>
          cases hstp : st.stop_condition with
          | none => exact ⟨_, rfl⟩
          | some stp =>
            rw [h]
            exact ⟨_, rfl⟩

/-- Witness for C9 (amended), at concrete inputs: a comment line is
dropped from a file input; a non-leading `%%`-line (after a parsed
`On` line) fails with a `ConfigurationError` quoting it; a file input
missing the deletion trigger fails with a `ConfigurationError`. -/
theorem parse_lines_file_semantics_witness :
    (parse_lines envW "p"
        (.fileInput ["# note", "On x", "When x", "Until x", "Dismiss"]) =
      parse_lines envW "p"
        (.fileInput ["On x", "When x", "Until x", "Dismiss"])) ∧
    (parse_lines envW "p" (.fileInput ["On x", "%% bad", "When x"]) =
      .error (.config "%% bad")) ∧
    (∃ msg, parse_lines envW "p" (.fileInput ["On x"]) =
      .error (.config msg)) :=
  ⟨parse_lines_file_semantics.1 envW "p" [] ["On x", "When x", "Until x", "Dismiss"]
      "# note" (Or.inr rfl),
   parse_lines_file_semantics.2.1 envW "p" ["On x"] "%% bad" ["When x"]
      ⟨some ⟨"x", "p"⟩, none, none, [], none, none, []⟩ "%%" ["bad"] rfl rfl
      rfl rfl (by decide) (by decide) (by decide) (by decide) rfl,
   parse_lines_file_semantics.2.2 envW "p" (.fileInput ["On x"])
      ⟨some ⟨"x", "p"⟩, none, none, [], none, none, []⟩ rfl
      (Or.inr (Or.inl rfl))⟩

/-! ## Replica partitioning (`Policy.partition_replicas` and
`Policy.restore_replicas`, `lib/detox/policy.py`)

Dataset replicas are values carrying their identity and their fixed
site and dataset back-references; the mutable parts of the graph —
each replica's `block_replicas` list, each site's `dataset_replicas`
set and `block_replicas` set — live in the inventory state, keyed by
replica id and site id (the heap of the Python object graph).
`inventory.datasets` is the registry, a keyed list of rows, each row
holding the dataset's mutable `replicas` list (`none` embeds
`dataset.replicas is None`). -/

/-- A `DatasetReplica`: identity plus its (immutable) site and dataset
back-references. -/
structure DRep where
  drId : Nat
  siteId : Nat
  datasetId : Nat
deriving DecidableEq, Repr

/-- The inventory state `partition_replicas` walks over. -/
structure InventoryP where
  datasets : List (Nat × Option (List DRep))
  drBlocks : Nat → List Nat
  siteDRs : Nat → Finset DRep
  siteBRs : Nat → Finset Nat

/-- The loop state of `partition_replicas`: the evolving
`replica.block_replicas` heap, `self.untracked_replicas` (a dict in
insertion order), the `site_all_dataset_replicas` /
`site_all_block_replicas` accumulators, and `all_replicas`. -/
structure PartAcc where
  drBlocks : Nat → List Nat
  untracked : List (DRep × List Nat)
  siteDRacc : Nat → List DRep
  siteBRacc : Nat → List Nat
  allReplicas : Finset DRep

/-- The `while ir != len(dataset.replicas)` loop over one dataset's
replica list: block replicas at a target site are split by the
partition predicate; a replica keeping no block replica is popped from
the list and stashed whole in `untracked_replicas`; a kept replica
keeps the in-partition blocks, stashes the others (when any), and is
appended to its site's accumulators. -/
def processReplicas (part : Nat → Bool) (targets : Finset Nat) :
    List DRep → PartAcc → List DRep × PartAcc
  | [], acc => ([], acc)
  | r :: rest, acc =>
    let brs := acc.drBlocks r.drId
    let inPart := if r.siteId ∈ targets then brs.filter part else []
    let notIn := if r.siteId ∈ targets then brs.filter (fun b => !(part b)) else []
    if inPart = [] then
      processReplicas part targets rest
        { acc with
          untracked := acc.untracked ++ [(r, brs)],
          drBlocks := Function.update acc.drBlocks r.drId [] }
    else
      let res := processReplicas part targets rest
        { acc with
          drBlocks := Function.update acc.drBlocks r.drId inPart,
          untracked :=
            if notIn = [] then acc.untracked else acc.untracked ++ [(r, notIn)],
          siteDRacc := Function.update acc.siteDRacc r.siteId
            (acc.siteDRacc r.siteId ++ [r]),
          siteBRacc := Function.update acc.siteBRacc r.siteId
            (acc.siteBRacc r.siteId ++ inPart),
          allReplicas := insert r acc.allReplicas }
      (r :: res.1, res.2)

/-- The `for dataset in inventory.datasets.itervalues()` loop:
datasets with `replicas is None` are skipped. -/
def processDatasets (part : Nat → Bool) (targets : Finset Nat) :
    List (Nat × Option (List DRep)) → PartAcc →
      List (Nat × Option (List DRep)) × PartAcc
  | [], acc => ([], acc)
  | (d, none) :: rest, acc =>
    let res := processDatasets part targets rest acc
    ((d, none) :: res.1, res.2)
  | (d, some rs) :: rest, acc =>
    let prs := processReplicas part targets rs acc
    let res := processDatasets part targets rest prs.2
    ((d, some prs.1) :: res.1, res.2)

/-- The loop state at entry of `partition_replicas`
(`untracked_replicas` empty, site accumulators empty). -/
def initAcc (inv : InventoryP) : PartAcc :=
  ⟨inv.drBlocks, [], fun _ => [], fun _ => [], ∅⟩

/-- `Policy.partition_replicas(inventory, target_sites)`: walk all
datasets, then rebuild each target site's `dataset_replicas` as
`set(...)` and its block replicas via `set_block_replicas` (modelled
from the spec for the missing `Site` class: both replace the site's
set with the accumulated elements).  Returns the new inventory, the
`untracked_replicas` container, and the returned `all_replicas`. -/
def partition_replicas (part : Nat → Bool) (targets : Finset Nat)
    (inv : InventoryP) :
    InventoryP × List (DRep × List Nat) × Finset DRep :=
  let res := processDatasets part targets inv.datasets (initAcc inv)
  (⟨res.1,
    res.2.drBlocks,
    fun s => if s ∈ targets then (res.2.siteDRacc s).toFinset else inv.siteDRs s,
    fun s => if s ∈ targets then (res.2.siteBRacc s).toFinset else inv.siteBRs s⟩,
   res.2.untracked, res.2.allReplicas)

/-- One `untracked_replicas.popitem()` round of `restore_replicas`:
re-append the replica to its dataset's list when missing, re-add it to
its site's `dataset_replicas`, append the stashed block replicas to
`replica.block_replicas`, and `site.add_block_replica` each of them
(modelled from the spec for the missing `Site` class: insertion into
the site's block-replica set). -/
def restoreEntry (inv : InventoryP) (e : DRep × List Nat) : InventoryP :=
  { datasets := inv.datasets.map (fun p =>
      if p.1 = e.1.datasetId then
        (p.1, p.2.map (fun rs => if e.1 ∈ rs then rs else rs ++ [e.1]))
      else p),
    drBlocks := Function.update inv.drBlocks e.1.drId
      (inv.drBlocks e.1.drId ++ e.2),
    siteDRs := Function.update inv.siteDRs e.1.siteId
      (if e.1 ∈ inv.siteDRs e.1.siteId then inv.siteDRs e.1.siteId
       else insert e.1 (inv.siteDRs e.1.siteId)),
    siteBRs := Function.update inv.siteBRs e.1.siteId
      (e.2.foldl (fun s b => insert b s) (inv.siteBRs e.1.siteId)) }

/-- `Policy.restore_replicas` over the untracked container. -/
def restore_replicas (inv : InventoryP)
    (untracked : List (DRep × List Nat)) : InventoryP :=
  untracked.foldl restoreEntry inv

/-- Whether a replica survives partitioning: its site is targeted and
at least one of its block replicas is in the partition (relative to
the pre-partition block lists `base`). -/
def keptB (part : Nat → Bool) (targets : Finset Nat) (base : Nat → List Nat)
    (r : DRep) : Bool :=
  decide (r.siteId ∈ targets) && !decide ((base r.drId).filter part = [])

/-- The `untracked_replicas` entry a replica contributes: dropped
replicas stash their whole block list, kept replicas their
out-of-partition blocks (when any). -/
def entryOf (part : Nat → Bool) (targets : Finset Nat) (base : Nat → List Nat)
    (r : DRep) : Option (DRep × List Nat) :=
  if keptB part targets base r then
    (if (base r.drId).filter (fun b => !(part b)) = [] then none
     else some (r, (base r.drId).filter (fun b => !(part b))))
  else some (r, base r.drId)

/-- All replicas the dataset loop walks, in order. -/
def rowsReplicas (datasets : List (Nat × Option (List DRep))) : List DRep :=
  (datasets.map (fun p => p.2.getD [])).flatten

/-- The accumulator after a replica is dropped (no block replica in
the partition). -/
def dropAcc (r : DRep) (acc : PartAcc) : PartAcc :=
  { acc with
    untracked := acc.untracked ++ [(r, acc.drBlocks r.drId)],
    drBlocks := Function.update acc.drBlocks r.drId [] }

/-- The accumulator after a replica is kept. -/
def keepAcc (part : Nat → Bool) (r : DRep) (acc : PartAcc) : PartAcc :=
  { acc with
    drBlocks := Function.update acc.drBlocks r.drId
      ((acc.drBlocks r.drId).filter part),
    untracked :=
      if (acc.drBlocks r.drId).filter (fun b => !(part b)) = [] then
        acc.untracked
      else acc.untracked ++ [(r, (acc.drBlocks r.drId).filter (fun b => !(part b)))],
    siteDRacc := Function.update acc.siteDRacc r.siteId
      (acc.siteDRacc r.siteId ++ [r]),
    siteBRacc := Function.update acc.siteBRacc r.siteId
      (acc.siteBRacc r.siteId ++ (acc.drBlocks r.drId).filter part),
    allReplicas := insert r acc.allReplicas }

theorem processReplicas_cons_drop (part : Nat → Bool) (targets : Finset Nat)
    (r : DRep) (rest : List DRep) (acc : PartAcc)
    (h : r.siteId ∉ targets ∨ (acc.drBlocks r.drId).filter part = []) :
    processReplicas part targets (r :: rest) acc =
      processReplicas part targets rest (dropAcc r acc) := by
  rcases h with h | h
  · simp [processReplicas, dropAcc, h]
  · by_cases hs : r.siteId ∈ targets
    · simp [processReplicas, dropAcc, hs, h]
    · simp [processReplicas, dropAcc, hs]

theorem processReplicas_cons_keep (part : Nat → Bool) (targets : Finset Nat)
    (r : DRep) (rest : List DRep) (acc : PartAcc)
    (hsite : r.siteId ∈ targets)
    (hfil : (acc.drBlocks r.drId).filter part ≠ []) :
    processReplicas part targets (r :: rest) acc =
      (r :: (processReplicas part targets rest (keepAcc part r acc)).1,
       (processReplicas part targets rest (keepAcc part r acc)).2) := by
  simp [processReplicas, keepAcc, hsite, hfil]

theorem processReplicas_spec (part : Nat → Bool) (targets : Finset Nat)
    (base : Nat → List Nat) :
    ∀ (rs : List DRep) (acc : PartAcc),
    (∀ r ∈ rs, acc.drBlocks r.drId = base r.drId) →
    rs.Pairwise (fun a b => a.drId ≠ b.drId) →
    (processReplicas part targets rs acc).1 =
        rs.filter (keptB part targets base) ∧
    (∀ r ∈ rs, (processReplicas part targets rs acc).2.drBlocks r.drId =
        if keptB part targets base r then (base r.drId).filter part else []) ∧
    (∀ i, (∀ r ∈ rs, r.drId ≠ i) →
        (processReplicas part targets rs acc).2.drBlocks i = acc.drBlocks i) ∧
    ((processReplicas part targets rs acc).2.untracked =
        acc.untracked ++ rs.filterMap (entryOf part targets base)) ∧
    (∀ s, (processReplicas part targets rs acc).2.siteDRacc s =
        acc.siteDRacc s ++ rs.filter
          (fun r => keptB part targets base r && r.siteId == s)) ∧
    (∀ s, (processReplicas part targets rs acc).2.siteBRacc s =
        acc.siteBRacc s ++ (rs.filter
          (fun r => keptB part targets base r && r.siteId == s)).flatMap
            (fun r => (base r.drId).filter part)) := by
  intro rs
  induction rs with
  | nil =>
    intro acc _ _
    refine ⟨rfl, ?_, ?_, ?_, ?_, ?_⟩ <;> simp [processReplicas]
  | cons r rest ih =>
    intro acc hbase hpw
    have hbr : acc.drBlocks r.drId = base r.drId :=
      hbase r (List.mem_cons_self r rest)
    have hpw_head : ∀ r' ∈ rest, r.drId ≠ r'.drId :=
      (List.pairwise_cons.mp hpw).1
    have hpw_rest := (List.pairwise_cons.mp hpw).2
    by_cases hk : keptB part targets base r = true
    · have hsite : r.siteId ∈ targets := by
        have h2 := hk
        simp only [keptB, Bool.and_eq_true, decide_eq_true_eq] at h2
        exact h2.1
      have hfilb : (base r.drId).filter part ≠ [] := by
        have h2 := hk
        simp only [keptB, Bool.and_eq_true, Bool.not_eq_true', decide_eq_false_iff_not] at h2
        exact h2.2
      have hfil : (acc.drBlocks r.drId).filter part ≠ [] := by
        rw [hbr]
        exact hfilb
      rw [processReplicas_cons_keep part targets r rest acc hsite hfil]
      have hbase1 : ∀ r' ∈ rest,
          (keepAcc part r acc).drBlocks r'.drId = base r'.drId := by
        intro r' hr'
        rw [keepAcc]
        simp only [Function.update_apply]
        rw [if_neg (fun hc => hpw_head r' hr' hc.symm)]
        exact hbase r' (List.mem_cons_of_mem r hr')
      obtain ⟨ih1, ih2, ih3, ih4, ih5, ih6⟩ :=
        ih (keepAcc part r acc) hbase1 hpw_rest
      refine ⟨?_, ?_, ?_, ?_, ?_, ?_⟩
      · simp only
        rw [ih1, List.filter_cons_of_pos hk]
      · intro r' hr'
        rcases List.mem_cons.mp hr' with h | h
        · subst h
          have hunch := ih3 r'.drId (fun x hx => Ne.symm (hpw_head x hx))
          simp only at hunch ⊢
          rw [hunch, keepAcc]
          simp only [Function.update_apply]
          rw [hbr]
          simp [hk]
        · simpa using ih2 r' h
      · intro i hi
        have h1 := ih3 i (fun x hx => hi x (List.mem_cons_of_mem r hx))
        simp only at h1 ⊢
        rw [h1, keepAcc]
        simp only [Function.update_apply]
        rw [if_neg (fun hc => hi r (List.mem_cons_self r rest) hc.symm)]
      · simp only at ih4 ⊢
        rw [ih4, keepAcc]
        simp only
        rw [List.filterMap_cons]
        have hentry : entryOf part targets base r =
            if (base r.drId).filter (fun b => !(part b)) = [] then none
            else some (r, (base r.drId).filter (fun b => !(part b))) := by
          rw [entryOf, if_pos hk]
        by_cases hni : (base r.drId).filter (fun b => !(part b)) = []
        · rw [hentry, if_pos hni, hbr, if_pos hni]
        · rw [hentry, if_neg hni, hbr, if_neg hni]
          rw [List.append_cons, List.append_assoc]
          simp
      · intro s
        have h5 := ih5 s
        simp only at h5 ⊢
        rw [h5, keepAcc]
        simp only [Function.update_apply]
        by_cases hs : r.siteId = s
        · rw [if_pos (by rw [hs]), List.filter_cons_of_pos
            (by simp [hk, hs]), hs, List.append_assoc]
          simp
        · rw [if_neg (by rw [eq_comm] at hs ⊢; exact fun hc => hs hc.symm),
            List.filter_cons_of_neg (by simp [hs])]
      · intro s
        have h6 := ih6 s
        simp only at h6 ⊢
        rw [h6, keepAcc]
        simp only [Function.update_apply]
        by_cases hs : r.siteId = s
        · rw [if_pos (by rw [hs]), List.filter_cons_of_pos (by simp [hk, hs]),
            List.flatMap_cons, hbr, hs, List.append_assoc]
        · rw [if_neg (by rw [eq_comm] at hs ⊢; exact fun hc => hs hc.symm),
            List.filter_cons_of_neg (by simp [hs])]
    · have hdrop : r.siteId ∉ targets ∨ (acc.drBlocks r.drId).filter part = [] := by
        by_cases hs : r.siteId ∈ targets
        · right
          rw [hbr]
          by_contra hne
          exact hk (by simp [keptB, hs, hne])
        · exact Or.inl hs
      rw [processReplicas_cons_drop part targets r rest acc hdrop]
      have hbase1 : ∀ r' ∈ rest,
          (dropAcc r acc).drBlocks r'.drId = base r'.drId := by
        intro r' hr'
        rw [dropAcc]
        simp only [Function.update_apply]
        rw [if_neg (fun hc => hpw_head r' hr' hc.symm)]
        exact hbase r' (List.mem_cons_of_mem r hr')
      obtain ⟨ih1, ih2, ih3, ih4, ih5, ih6⟩ :=
        ih (dropAcc r acc) hbase1 hpw_rest
      have hkf : keptB part targets base r = false := by
        simpa using hk
      refine ⟨?_, ?_, ?_, ?_, ?_, ?_⟩
      · rw [ih1, List.filter_cons_of_neg (by simp [hkf])]
      · intro r' hr'
        rcases List.mem_cons.mp hr' with h | h
        · subst h
          have hunch := ih3 r'.drId (fun x hx => Ne.symm (hpw_head x hx))
          simp only at hunch ⊢
          rw [hunch, dropAcc]
          simp only [Function.update_apply]
          simp [hkf]
        · simpa using ih2 r' h
      · intro i hi
        have h1 := ih3 i (fun x hx => hi x (List.mem_cons_of_mem r hx))
        simp only at h1 ⊢
        rw [h1, dropAcc]
        simp only [Function.update_apply]
        rw [if_neg (fun hc => hi r (List.mem_cons_self r rest) hc.symm)]
      · rw [ih4, dropAcc]
        simp only
        rw [List.filterMap_cons]
        have hentry : entryOf part targets base r = some (r, base r.drId) := by
          rw [entryOf, if_neg (by simp [hkf])]
        rw [hentry, hbr, List.append_cons, List.append_assoc]
        simp
      · intro s
        have h5 := ih5 s
        simp only at h5 ⊢
        rw [h5, dropAcc]
        rw [List.filter_cons_of_neg (by simp [hkf])]
      · intro s
        have h6 := ih6 s
        simp only at h6 ⊢
        rw [h6, dropAcc]
        rw [List.filter_cons_of_neg (by simp [hkf])]

theorem rowsReplicas_cons (p : Nat × Option (List DRep))
    (rest : List (Nat × Option (List DRep))) :
    rowsReplicas (p :: rest) = p.2.getD [] ++ rowsReplicas rest := by
  simp [rowsReplicas]

theorem processDatasets_spec (part : Nat → Bool) (targets : Finset Nat)
    (base : Nat → List Nat) :
    ∀ (dss : List (Nat × Option (List DRep))) (acc : PartAcc),
    (∀ r ∈ rowsReplicas dss, acc.drBlocks r.drId = base r.drId) →
    (rowsReplicas dss).Pairwise (fun a b => a.drId ≠ b.drId) →
    (processDatasets part targets dss acc).1 =
        dss.map (fun p => (p.1, p.2.map (fun rs =>
          rs.filter (keptB part targets base)))) ∧
    (∀ r ∈ rowsReplicas dss,
        (processDatasets part targets dss acc).2.drBlocks r.drId =
          if keptB part targets base r then (base r.drId).filter part else []) ∧
    (∀ i, (∀ r ∈ rowsReplicas dss, r.drId ≠ i) →
        (processDatasets part targets dss acc).2.drBlocks i = acc.drBlocks i) ∧
    ((processDatasets part targets dss acc).2.untracked =
        acc.untracked ++ (rowsReplicas dss).filterMap (entryOf part targets base)) ∧
    (∀ s, (processDatasets part targets dss acc).2.siteDRacc s =
        acc.siteDRacc s ++ (rowsReplicas dss).filter
          (fun r => keptB part targets base r && r.siteId == s)) ∧
    (∀ s, (processDatasets part targets dss acc).2.siteBRacc s =
        acc.siteBRacc s ++ ((rowsReplicas dss).filter
          (fun r => keptB part targets base r && r.siteId == s)).flatMap
            (fun r => (base r.drId).filter part)) := by
  intro dss
  induction dss with
  | nil =>
    intro acc _ _
    refine ⟨rfl, ?_, ?_, ?_, ?_, ?_⟩ <;> simp [processDatasets, rowsReplicas]
  | cons p rest ih =>
    intro acc hbase hpw
    rcases p with ⟨d, rso⟩
    cases rso with
    | none =>
      rw [rowsReplicas_cons] at hbase hpw
      simp only [Option.getD_none, List.nil_append] at hbase hpw
      obtain ⟨ih1, ih2, ih3, ih4, ih5, ih6⟩ := ih acc hbase hpw
      rw [processDatasets]
      refine ⟨?_, ?_, ?_, ?_, ?_, ?_⟩
      · simp only [List.map_cons]
        rw [ih1]
        rfl
      · intro r hr
        rw [rowsReplicas_cons] at hr
        simp only [Option.getD_none, List.nil_append] at hr
        exact ih2 r hr
      · intro i hi
        rw [rowsReplicas_cons] at hi
        simp only [Option.getD_none, List.nil_append] at hi
        exact ih3 i hi
      · rw [rowsReplicas_cons]
        simpa using ih4
      · intro s
        rw [rowsReplicas_cons]
        simpa using ih5 s
      · intro s
        rw [rowsReplicas_cons]
        simpa using ih6 s
    | some rs =>
      rw [rowsReplicas_cons] at hbase hpw
      simp only [Option.getD_some] at hbase hpw
      rw [List.pairwise_append] at hpw
      obtain ⟨hpw1, hpw2, hpwx⟩ := hpw
      have hbase1 : ∀ r ∈ rs, acc.drBlocks r.drId = base r.drId :=
        fun r hr => hbase r (List.mem_append_left _ hr)
      obtain ⟨p1, p2, p3, p4, p5, p6⟩ :=
        processReplicas_spec part targets base rs acc hbase1 hpw1
      have hbase2 : ∀ r ∈ rowsReplicas rest,
          (processReplicas part targets rs acc).2.drBlocks r.drId =
            base r.drId := by
        intro r hr
        rw [p3 r.drId (fun x hx hc => hpwx x hx r hr hc)]
        exact hbase r (List.mem_append_right _ hr)
      obtain ⟨ih1, ih2, ih3, ih4, ih5, ih6⟩ :=
        ih (processReplicas part targets rs acc).2 hbase2 hpw2
      rw [processDatasets]
      refine ⟨?_, ?_, ?_, ?_, ?_, ?_⟩
      · simp only [List.map_cons]
        rw [ih1, p1]
        rfl
      · intro r hr
        rw [rowsReplicas_cons] at hr
        simp only [Option.getD_some] at hr
        rcases List.mem_append.mp hr with h | h
        · rw [ih3 r.drId (fun x hx hc => hpwx r h x hx hc.symm)]
          exact p2 r h
        · exact ih2 r h
      · intro i hi
        rw [rowsReplicas_cons] at hi
        simp only [Option.getD_some] at hi
        rw [ih3 i (fun x hx => hi x (List.mem_append_right _ hx))]
        exact p3 i (fun x hx => hi x (List.mem_append_left _ hx))
      · rw [rowsReplicas_cons]
        simp only [Option.getD_some]
        rw [ih4, p4, List.filterMap_append, List.append_assoc]
      · intro s
        rw [rowsReplicas_cons]
        simp only [Option.getD_some]
        rw [ih5 s, p5 s, List.filter_append, List.append_assoc]
      · intro s
        rw [rowsReplicas_cons]
        simp only [Option.getD_some]
        rw [ih6 s, p6 s, List.filter_append, List.flatMap_append,
          List.append_assoc]

theorem mem_foldl_insert (l : List Nat) :
    ∀ (init : Finset Nat) (b : Nat),
      b ∈ l.foldl (fun s x => insert x s) init ↔ b ∈ init ∨ b ∈ l := by
  induction l with
  | nil =>
    intro init b
    simp
  | cons x xs ih =>
    intro init b
    rw [List.foldl_cons, ih]
    simp only [Finset.mem_insert, List.mem_cons]
    tauto

theorem restore_spec :
    ∀ (entries : List (DRep × List Nat)) (inv : InventoryP),
    entries.Pairwise (fun a b => a.1.drId ≠ b.1.drId) →
    ((restore_replicas inv entries).datasets = inv.datasets.map (fun p =>
        (p.1, p.2.map (fun rs => rs ++ (entries.filter
          (fun e => e.1.datasetId == p.1 && !(decide (e.1 ∈ rs)))).map Prod.fst)))) ∧
    (∀ e ∈ entries, (restore_replicas inv entries).drBlocks e.1.drId =
        inv.drBlocks e.1.drId ++ e.2) ∧
    (∀ i, (∀ e ∈ entries, e.1.drId ≠ i) →
        (restore_replicas inv entries).drBlocks i = inv.drBlocks i) ∧
    (∀ s x, x ∈ (restore_replicas inv entries).siteDRs s ↔
        x ∈ inv.siteDRs s ∨ ∃ e ∈ entries, e.1 = x ∧ x.siteId = s) ∧
    (∀ s b, b ∈ (restore_replicas inv entries).siteBRs s ↔
        b ∈ inv.siteBRs s ∨ ∃ e ∈ entries, e.1.siteId = s ∧ b ∈ e.2) := by
  intro entries
  induction entries with
  | nil =>
    intro inv _
    refine ⟨?_, ?_, ?_, ?_, ?_⟩
    · simp [restore_replicas]
    · intro e he
      cases he
    · intro i _
      rfl
    · intro s x
      simp [restore_replicas]
    · intro s b
      simp [restore_replicas]
  | cons e rest ih =>
    intro inv hpw
    have hpw_head : ∀ e' ∈ rest, e.1.drId ≠ e'.1.drId :=
      (List.pairwise_cons.mp hpw).1
    have hpw_rest := (List.pairwise_cons.mp hpw).2
    obtain ⟨ih1, ih2, ih3, ih4, ih5⟩ := ih (restoreEntry inv e) hpw_rest
    have hfold : restore_replicas inv (e :: rest) =
        restore_replicas (restoreEntry inv e) rest := rfl
    refine ⟨?_, ?_, ?_, ?_, ?_⟩
    · rw [hfold, ih1, restoreEntry]
      simp only [List.map_map]
      refine List.map_congr_left ?_
      intro p hp
      simp only [Function.comp_apply]
      by_cases hd : p.1 = e.1.datasetId
      · rw [if_pos hd]
        simp only [Option.map_map]
        cases hrso : p.2 with
        | none => rfl
        | some rs =>
          simp only [Option.map_some', Function.comp_apply]
          congr 1
          have hrest : rest.filter (fun e' => e'.1.datasetId == p.1 &&
              !(decide (e'.1 ∈ (if e.1 ∈ rs then rs else rs ++ [e.1])))) =
              rest.filter (fun e' => e'.1.datasetId == p.1 &&
                !(decide (e'.1 ∈ rs))) := by
            refine List.filter_congr ?_
            intro e' he'
            have hne : e'.1 ≠ e.1 := by
              intro hc
              exact hpw_head e' he' (by rw [hc])
            by_cases hmem : e.1 ∈ rs
            · rw [if_pos hmem]
            · rw [if_neg hmem]
              have : (e'.1 ∈ rs ++ [e.1]) ↔ e'.1 ∈ rs := by
                simp [hne]
              simp [this]
          rw [hrest]
          by_cases hmem : e.1 ∈ rs
          · rw [if_pos hmem, List.filter_cons_of_neg (by simp [hmem])]
          · rw [if_neg hmem, List.filter_cons_of_pos (by simp [hmem, hd]),
              List.map_cons, List.append_assoc]
            rfl
      · rw [if_neg hd]
        cases hrso : p.2 with
        | none => rfl
        | some rs =>
          simp only [Option.map_some']
          congr 2
          have hd2 : e.1.datasetId ≠ p.1 := fun hc => hd hc.symm
          rw [List.filter_cons_of_neg (by simp [hd2])]
    · intro e' he'
      rcases List.mem_cons.mp he' with h | h
      · subst h
        rw [hfold, ih3 e'.1.drId (fun x hx => Ne.symm (hpw_head x hx)),
          restoreEntry]
        simp [Function.update_apply]
      · rw [hfold, ih2 e' h, restoreEntry]
        simp only [Function.update_apply]
        rw [if_neg (fun hc => hpw_head e' h hc.symm)]
    · intro i hi
      rw [hfold, ih3 i (fun x hx => hi x (List.mem_cons_of_mem e hx)),
        restoreEntry]
      simp only [Function.update_apply]
      rw [if_neg (fun hc => hi e (List.mem_cons_self e rest) hc.symm)]
    · intro s x
      rw [hfold, ih4 s x]
      have hstep : x ∈ (restoreEntry inv e).siteDRs s ↔
          x ∈ inv.siteDRs s ∨ (e.1 = x ∧ x.siteId = s) := by
        rw [restoreEntry]
        simp only [Function.update_apply]
        by_cases hs : s = e.1.siteId
        · subst hs
          rw [if_pos rfl]
          by_cases hmem : e.1 ∈ inv.siteDRs e.1.siteId
          · rw [if_pos hmem]
            constructor
            · intro hx
              exact Or.inl hx
            · intro hx
              rcases hx with hx | ⟨hex, hxs⟩
              · exact hx
              · rw [← hex]
                exact hmem
          · rw [if_neg hmem, Finset.mem_insert]
            constructor
            · intro hx
              rcases hx with hx | hx
              · exact Or.inr ⟨hx.symm, by rw [hx]⟩
              · exact Or.inl hx
            · intro hx
              rcases hx with hx | ⟨hex, hxs⟩
              · exact Or.inr hx
              · exact Or.inl hex.symm
        · rw [if_neg hs]
          constructor
          · intro hx
            exact Or.inl hx
          · intro hx
            rcases hx with hx | ⟨hex, hxs⟩
            · exact hx
            · exfalso
              apply hs
              rw [← hxs, ← hex]
      rw [hstep]
      constructor
      · intro hx
        rcases hx with (hx | ⟨hex, hxs⟩) | hx
        · exact Or.inl hx
        · exact Or.inr ⟨e, List.mem_cons_self e rest, hex, hxs⟩
        · obtain ⟨e', he', hex, hxs⟩ := hx
          exact Or.inr ⟨e', List.mem_cons_of_mem e he', hex, hxs⟩
      · intro hx
        rcases hx with hx | ⟨e', he', hex, hxs⟩
        · exact Or.inl (Or.inl hx)
        · rcases List.mem_cons.mp he' with h | h
          · subst h
            exact Or.inl (Or.inr ⟨hex, hxs⟩)
          · exact Or.inr ⟨e', h, hex, hxs⟩
    · intro s b
      rw [hfold, ih5 s b]
      have hstep : b ∈ (restoreEntry inv e).siteBRs s ↔
          b ∈ inv.siteBRs s ∨ (e.1.siteId = s ∧ b ∈ e.2) := by
        rw [restoreEntry]
        simp only [Function.update_apply]
        by_cases hs : s = e.1.siteId
        · subst hs
          rw [if_pos rfl, mem_foldl_insert]
          tauto
        · rw [if_neg hs]
          constructor
          · intro hb
            exact Or.inl hb
          · intro hb
            rcases hb with hb | ⟨hes, hbe⟩
            · exact hb
            · exact absurd hes (fun hc => hs hc.symm)
      rw [hstep]
      constructor
      · intro hb
        rcases hb with (hb | ⟨hes, hbe⟩) | hb
        · exact Or.inl hb
        · exact Or.inr ⟨e, List.mem_cons_self e rest, hes, hbe⟩
        · obtain ⟨e', he', hes, hbe⟩ := hb
          exact Or.inr ⟨e', List.mem_cons_of_mem e he', hes, hbe⟩
      · intro hb
        rcases hb with hb | ⟨e', he', hes, hbe⟩
        · exact Or.inl (Or.inl hb)
        · rcases List.mem_cons.mp he' with h | h
          · subst h
            exact Or.inl (Or.inr ⟨hes, hbe⟩)
          · exact Or.inr ⟨e', h, hes, hbe⟩

theorem entryOf_fst (part : Nat → Bool) (targets : Finset Nat)
    (base : Nat → List Nat) (r : DRep) (e : DRep × List Nat)
    (h : entryOf part targets base r = some e) : e.1 = r := by
  rw [entryOf] at h
  by_cases hk : keptB part targets base r = true
  · rw [if_pos hk] at h
    by_cases hni : (base r.drId).filter (fun b => !(part b)) = []
    · rw [if_pos hni] at h
      cases h
    · rw [if_neg hni] at h
      cases h
      rfl
  · rw [if_neg hk] at h
    cases h
    rfl

theorem entryOf_snd_subset (part : Nat → Bool) (targets : Finset Nat)
    (base : Nat → List Nat) (r : DRep) (e : DRep × List Nat)
    (h : entryOf part targets base r = some e) : ∀ b ∈ e.2, b ∈ base r.drId := by
  rw [entryOf] at h
  by_cases hk : keptB part targets base r = true
  · rw [if_pos hk] at h
    by_cases hni : (base r.drId).filter (fun b => !(part b)) = []
    · rw [if_pos hni] at h
      cases h
    · rw [if_neg hni] at h
      cases h
      intro b hb
      exact (List.mem_filter.mp hb).1
  · rw [if_neg hk] at h
    cases h
    intro b hb
    exact hb

theorem entryOf_not_kept (part : Nat → Bool) (targets : Finset Nat)
    (base : Nat → List Nat) (r : DRep)
    (hk : keptB part targets base r = false) :
    entryOf part targets base r = some (r, base r.drId) := by
  rw [entryOf, if_neg (by simp [hk])]

theorem pairwise_filterMap_entryOf (part : Nat → Bool) (targets : Finset Nat)
    (base : Nat → List Nat) :
    ∀ rows : List DRep, rows.Pairwise (fun a b => a.drId ≠ b.drId) →
      (rows.filterMap (entryOf part targets base)).Pairwise
        (fun a b => a.1.drId ≠ b.1.drId) := by
  intro rows
  induction rows with
  | nil =>
    intro _
    simp
  | cons r rest ih =>
    intro hpw
    rw [List.filterMap_cons]
    have hh := (List.pairwise_cons.mp hpw).1
    have ht := ih (List.pairwise_cons.mp hpw).2
    cases ho : entryOf part targets base r with
    | none => exact ht
    | some e0 =>
      refine List.pairwise_cons.mpr ⟨?_, ht⟩
      intro e' he'
      obtain ⟨r', hr', he0⟩ := List.mem_filterMap.mp he'
      rw [entryOf_fst part targets base r e0 ho,
        entryOf_fst part targets base r' e' he0]
      exact hh r' hr'

theorem rows_drId_unique :
    ∀ (rows : List DRep), rows.Pairwise (fun a b => a.drId ≠ b.drId) →
      ∀ a ∈ rows, ∀ b ∈ rows, a.drId = b.drId → a = b := by
  intro rows
  induction rows with
  | nil =>
    intro _ a ha
    cases ha
  | cons r rest ih =>
    intro hpw a ha b hb hab
    have hh := (List.pairwise_cons.mp hpw).1
    have ht := (List.pairwise_cons.mp hpw).2
    rcases List.mem_cons.mp ha with ha1 | ha1
    · rcases List.mem_cons.mp hb with hb1 | hb1
      · rw [ha1, hb1]
      · rw [ha1] at hab
        exact absurd hab (hh b hb1)
    · rcases List.mem_cons.mp hb with hb1 | hb1
      · rw [hb1] at hab
        exact absurd hab.symm (hh a ha1)
      · exact ih ht a ha1 b hb1 hab

theorem keyed_row_unique {α : Type} :
    ∀ (l : List (Nat × α)) (k : Nat) (a b : α),
      (l.map Prod.fst).Nodup → (k, a) ∈ l → (k, b) ∈ l → a = b := by
  intro l
  induction l with
  | nil =>
    intro k a b _ ha
    cases ha
  | cons p rest ih =>
    intro k a b hnd ha hb
    rw [List.map_cons, List.nodup_cons] at hnd
    rcases List.mem_cons.mp ha with ha1 | ha1
    · rcases List.mem_cons.mp hb with hb1 | hb1
      · exact congrArg Prod.snd (ha1.trans hb1.symm)
      · exfalso
        apply hnd.1
        rw [← ha1]
        exact List.mem_map.mpr ⟨(k, b), hb1, rfl⟩
    · rcases List.mem_cons.mp hb with hb1 | hb1
      · exfalso
        apply hnd.1
        rw [← hb1]
        exact List.mem_map.mpr ⟨(k, a), ha1, rfl⟩
      · exact ih k a b hnd.2 ha1 hb1

theorem mem_rowsReplicas (dss : List (Nat × Option (List DRep))) (r : DRep) :
    r ∈ rowsReplicas dss ↔ ∃ p ∈ dss, ∃ rs, p.2 = some rs ∧ r ∈ rs := by
  rw [rowsReplicas, List.mem_flatten]
  constructor
  · intro ⟨l, hl, hrl⟩
    obtain ⟨p, hp, hpl⟩ := List.mem_map.mp hl
    refine ⟨p, hp, ?_⟩
    cases hrso : p.2 with
    | none =>
      rw [hrso] at hpl
      simp only [Option.getD_none] at hpl
      rw [← hpl] at hrl
      cases hrl
    | some rs =>
      rw [hrso] at hpl
      simp only [Option.getD_some] at hpl
      exact ⟨rs, rfl, hpl ▸ hrl⟩
  · intro ⟨p, hp, rs, hrso, hrrs⟩
    refine ⟨rs, ?_, hrrs⟩
    exact List.mem_map.mpr ⟨p, hp, by rw [hrso]; rfl⟩

theorem keptB_iff (part : Nat → Bool) (targets : Finset Nat)
    (base : Nat → List Nat) (r : DRep) :
    keptB part targets base r = true ↔
      r.siteId ∈ targets ∧ (base r.drId).filter part ≠ [] := by
  simp [keptB]

theorem entryOf_kept_partial (part : Nat → Bool) (targets : Finset Nat)
    (base : Nat → List Nat) (r : DRep)
    (hk : keptB part targets base r = true)
    (hni : (base r.drId).filter (fun b => !(part b)) ≠ []) :
    entryOf part targets base r =
      some (r, (base r.drId).filter (fun b => !(part b))) := by
  rw [entryOf, if_pos hk, if_neg hni]

theorem entryOf_kept_full (part : Nat → Bool) (targets : Finset Nat)
    (base : Nat → List Nat) (r : DRep)
    (hk : keptB part targets base r = true)
    (hni : (base r.drId).filter (fun b => !(part b)) = []) :
    entryOf part targets base r = none := by
  rw [entryOf, if_pos hk, if_pos hni]

theorem filter_of_negfilter_nil (p : Nat → Bool) (l : List Nat)
    (h : l.filter (fun b => !(p b)) = []) : l.filter p = l := by
  rw [List.filter_eq_self]
  intro a ha
  have := List.filter_eq_nil_iff.mp h a ha
  simpa using this

/-- The composite `restore_replicas(partition_replicas(...))` of the
round-trip claim. -/
def roundtrip (part : Nat → Bool) (targets : Finset Nat)
    (inv : InventoryP) : InventoryP :=
  restore_replicas (partition_replicas part targets inv).1
    (partition_replicas part targets inv).2.1

/-- C2: for every inventory whose object graph is well formed (replica
rows have pairwise-distinct ids, dataset keys are unique, each replica
sits in the dataset row matching its `datasetId`, and the sites'
dataset-replica and block-replica sets agree with the rows),
`partition_replicas` followed by `restore_replicas` returns the
inventory to an equal state: every dataset's replica list, every
site's `dataset_replicas` set, every site's block-replica set, and
every dataset replica's `block_replicas` collection contain exactly
the elements they contained before partitioning. -/
theorem partition_restore_roundtrip
    (part : Nat → Bool) (targets : Finset Nat) (inv : InventoryP)
    (hND : (rowsReplicas inv.datasets).Pairwise (fun a b => a.drId ≠ b.drId))
    (hKeys : (inv.datasets.map Prod.fst).Nodup)
    (hDid : ∀ p ∈ inv.datasets, ∀ r ∈ p.2.getD [], r.datasetId = p.1)
    (hDR1 : ∀ r ∈ rowsReplicas inv.datasets, r ∈ inv.siteDRs r.siteId)
    (hDR2 : ∀ s ∈ targets, ∀ x ∈ inv.siteDRs s,
      x ∈ rowsReplicas inv.datasets ∧ x.siteId = s)
    (hBR1 : ∀ r ∈ rowsReplicas inv.datasets, ∀ b ∈ inv.drBlocks r.drId,
      b ∈ inv.siteBRs r.siteId)
    (hBR2 : ∀ s ∈ targets, ∀ b ∈ inv.siteBRs s,
      ∃ r ∈ rowsReplicas inv.datasets, r.siteId = s ∧ b ∈ inv.drBlocks r.drId) :
    (∀ p ∈ inv.datasets, p.2 = none →
      (p.1, (none : Option (List DRep))) ∈
        (roundtrip part targets inv).datasets) ∧
    (∀ p ∈ inv.datasets, ∀ rs, p.2 = some rs →
      ∃ rs2, (p.1, some rs2) ∈ (roundtrip part targets inv).datasets ∧
        rs2.toFinset = rs.toFinset) ∧
    (∀ r ∈ rowsReplicas inv.datasets,
      ((roundtrip part targets inv).drBlocks r.drId).toFinset =
        (inv.drBlocks r.drId).toFinset) ∧
    (∀ s, (roundtrip part targets inv).siteDRs s = inv.siteDRs s) ∧
    (∀ s, (roundtrip part targets inv).siteBRs s = inv.siteBRs s) := by
  obtain ⟨PD1, PD2, PD3, PD4, PD5, PD6⟩ :=
    processDatasets_spec part targets inv.drBlocks inv.datasets (initAcc inv)
      (fun r _ => rfl) hND
  have hE : (partition_replicas part targets inv).2.1 =
      (rowsReplicas inv.datasets).filterMap
        (entryOf part targets inv.drBlocks) := by
    have h0 : (partition_replicas part targets inv).2.1 =
        (processDatasets part targets inv.datasets (initAcc inv)).2.untracked :=
      rfl
    rw [h0, PD4]
    exact rfl
  obtain ⟨R1, R2, R3, R4, R5⟩ :=
    restore_spec
      ((rowsReplicas inv.datasets).filterMap
        (entryOf part targets inv.drBlocks))
      (partition_replicas part targets inv).1
      (pairwise_filterMap_entryOf part targets inv.drBlocks
        (rowsReplicas inv.datasets) hND)
  have hrt : roundtrip part targets inv =
      restore_replicas (partition_replicas part targets inv).1
        ((rowsReplicas inv.datasets).filterMap
          (entryOf part targets inv.drBlocks)) := by
    unfold roundtrip
    rw [hE]
  have hds1 : (partition_replicas part targets inv).1.datasets =
      inv.datasets.map (fun p => (p.1, p.2.map (fun rs =>
        rs.filter (keptB part targets inv.drBlocks)))) := PD1
  have hdr1 : ∀ r ∈ rowsReplicas inv.datasets,
      (partition_replicas part targets inv).1.drBlocks r.drId =
        if keptB part targets inv.drBlocks r then
          (inv.drBlocks r.drId).filter part
        else [] := PD2
  have hsd1 : ∀ s, s ∈ targets →
      (partition_replicas part targets inv).1.siteDRs s =
        ((rowsReplicas inv.datasets).filter
          (fun r => keptB part targets inv.drBlocks r &&
            r.siteId == s)).toFinset := by
    intro s hs
    have h0 : (partition_replicas part targets inv).1.siteDRs s =
        if s ∈ targets then
          ((processDatasets part targets inv.datasets
            (initAcc inv)).2.siteDRacc s).toFinset
        else inv.siteDRs s := rfl
    rw [h0, if_pos hs, PD5 s]
    exact rfl
  have hsd1' : ∀ s, s ∉ targets →
      (partition_replicas part targets inv).1.siteDRs s = inv.siteDRs s := by
    intro s hs
    have h0 : (partition_replicas part targets inv).1.siteDRs s =
        if s ∈ targets then
          ((processDatasets part targets inv.datasets
            (initAcc inv)).2.siteDRacc s).toFinset
        else inv.siteDRs s := rfl
    rw [h0, if_neg hs]
  have hsb1 : ∀ s, s ∈ targets →
      (partition_replicas part targets inv).1.siteBRs s =
        (((rowsReplicas inv.datasets).filter
          (fun r => keptB part targets inv.drBlocks r &&
            r.siteId == s)).flatMap
              (fun r => (inv.drBlocks r.drId).filter part)).toFinset := by
    intro s hs
    have h0 : (partition_replicas part targets inv).1.siteBRs s =
        if s ∈ targets then
          ((processDatasets part targets inv.datasets
            (initAcc inv)).2.siteBRacc s).toFinset
        else inv.siteBRs s := rfl
    rw [h0, if_pos hs, PD6 s]
    exact rfl
  have hsb1' : ∀ s, s ∉ targets →
      (partition_replicas part targets inv).1.siteBRs s = inv.siteBRs s := by
    intro s hs
    have h0 : (partition_replicas part targets inv).1.siteBRs s =
        if s ∈ targets then
          ((processDatasets part targets inv.datasets
            (initAcc inv)).2.siteBRacc s).toFinset
        else inv.siteBRs s := rfl
    rw [h0, if_neg hs]
  have hRowIn : ∀ x ∈ rowsReplicas inv.datasets, ∀ p ∈ inv.datasets, ∀ rs,
      p.2 = some rs → x.datasetId = p.1 → x ∈ rs := by
    intro x hx p hp rs hrs hdid
    obtain ⟨q, hq, rs', hrs', hxrs'⟩ := (mem_rowsReplicas inv.datasets x).mp hx
    have hq1 : x.datasetId = q.1 := by
      refine hDid q hq x ?_
      rw [hrs']
      exact hxrs'
    have hkey : q.1 = p.1 := by rw [← hq1, hdid]
    have hval : q.2 = p.2 := by
      have h1 : (q.1, q.2) ∈ inv.datasets := hq
      have h2 : (q.1, p.2) ∈ inv.datasets := by
        rw [hkey]
        exact hp
      exact keyed_row_unique inv.datasets q.1 q.2 p.2 hKeys h1 h2
    rw [hval, hrs] at hrs'
    injection hrs' with h
    rw [h]
    exact hxrs'
  refine ⟨?_, ?_, ?_, ?_, ?_⟩
  · -- none datasets stay none
    intro p hp hpn
    rw [hrt, R1, hds1, List.map_map]
    refine List.mem_map.mpr ⟨p, hp, ?_⟩
    simp only [Function.comp_apply]
    rw [hpn]
    exact rfl
  · -- dataset replica lists keep the same elements
    intro p hp rs hrs
    refine ⟨rs.filter (keptB part targets inv.drBlocks) ++
      ((((rowsReplicas inv.datasets).filterMap
        (entryOf part targets inv.drBlocks)).filter
          (fun e => e.1.datasetId == p.1 &&
            !(decide (e.1 ∈ rs.filter (keptB part targets inv.drBlocks))))).map
              Prod.fst), ?_, ?_⟩
    · rw [hrt, R1, hds1, List.map_map]
      refine List.mem_map.mpr ⟨p, hp, ?_⟩
      simp only [Function.comp_apply]
      rw [hrs]
      exact rfl
    · apply Finset.ext
      intro x
      rw [List.mem_toFinset, List.mem_toFinset]
      constructor
      · intro hx
        rcases List.mem_append.mp hx with hx | hx
        · exact (List.mem_filter.mp hx).1
        · obtain ⟨e, he, hex⟩ := List.mem_map.mp hx
          obtain ⟨heE, hcond⟩ := List.mem_filter.mp he
          obtain ⟨r, hr, hor⟩ := List.mem_filterMap.mp heE
          have he1 : e.1 = r := entryOf_fst part targets inv.drBlocks r e hor
          have hxr : x = r := by rw [← hex, he1]
          have hdid : r.datasetId = p.1 := by
            have hb : (e.1.datasetId == p.1) = true :=
              (Bool.and_eq_true_iff.mp hcond).1
            rw [he1] at hb
            simpa using hb
          rw [hxr]
          exact hRowIn r hr p hp rs hrs hdid
      · intro hx
        by_cases hk : keptB part targets inv.drBlocks x = true
        · exact List.mem_append.mpr (Or.inl (List.mem_filter.mpr ⟨hx, hk⟩))
        · have hxrows : x ∈ rowsReplicas inv.datasets :=
            (mem_rowsReplicas inv.datasets x).mpr ⟨p, hp, rs, hrs, hx⟩
          have hkf : keptB part targets inv.drBlocks x = false :=
            Bool.eq_false_iff.mpr hk
          have hor := entryOf_not_kept part targets inv.drBlocks x hkf
          refine List.mem_append.mpr (Or.inr ?_)
          refine List.mem_map.mpr ⟨(x, inv.drBlocks x.drId), ?_, rfl⟩
          refine List.mem_filter.mpr ⟨?_, ?_⟩
          · exact List.mem_filterMap.mpr ⟨x, hxrows, hor⟩
          · have hd1 : x.datasetId = p.1 := by
              refine hDid p hp x ?_
              rw [hrs]
              exact hx
            have hd2 : x ∉ rs.filter (keptB part targets inv.drBlocks) := by
              intro hc
              exact hk (List.mem_filter.mp hc).2
            simp [hd1, hd2]
  · -- replica block lists keep the same elements
    intro r hr
    rw [hrt]
    by_cases hk : keptB part targets inv.drBlocks r = true
    · by_cases hni : (inv.drBlocks r.drId).filter (fun b => !(part b)) = []
      · have hnone : ∀ e ∈ (rowsReplicas inv.datasets).filterMap
            (entryOf part targets inv.drBlocks), e.1.drId ≠ r.drId := by
          intro e he hc
          obtain ⟨r', hr', hor⟩ := List.mem_filterMap.mp he
          have he1 : e.1 = r' := entryOf_fst part targets inv.drBlocks r' e hor
          have hrr : r' = r := by
            refine rows_drId_unique (rowsReplicas inv.datasets) hND
              r' hr' r hr ?_
            rw [← he1, hc]
          rw [hrr, entryOf_kept_full part targets inv.drBlocks r hk hni] at hor
          cases hor
        rw [R3 r.drId hnone, hdr1 r hr, if_pos hk,
          filter_of_negfilter_nil part (inv.drBlocks r.drId) hni]
      · have hor : entryOf part targets inv.drBlocks r =
            some (r, (inv.drBlocks r.drId).filter (fun b => !(part b))) :=
          entryOf_kept_partial part targets inv.drBlocks r hk hni
        have heE : (r, (inv.drBlocks r.drId).filter (fun b => !(part b))) ∈
            (rowsReplicas inv.datasets).filterMap
              (entryOf part targets inv.drBlocks) :=
          List.mem_filterMap.mpr ⟨r, hr, hor⟩
        have h2 : (restore_replicas (partition_replicas part targets inv).1
            ((rowsReplicas inv.datasets).filterMap
              (entryOf part targets inv.drBlocks))).drBlocks r.drId =
            (partition_replicas part targets inv).1.drBlocks r.drId ++
              (inv.drBlocks r.drId).filter (fun b => !(part b)) := R2 _ heE
        rw [h2, hdr1 r hr, if_pos hk]
        exact List.toFinset_eq_of_perm _ _
          (List.filter_append_perm part (inv.drBlocks r.drId))
    · have hkf : keptB part targets inv.drBlocks r = false :=
        Bool.eq_false_iff.mpr hk
      have hor := entryOf_not_kept part targets inv.drBlocks r hkf
      have heE : (r, inv.drBlocks r.drId) ∈
          (rowsReplicas inv.datasets).filterMap
            (entryOf part targets inv.drBlocks) :=
        List.mem_filterMap.mpr ⟨r, hr, hor⟩
      have h2 : (restore_replicas (partition_replicas part targets inv).1
          ((rowsReplicas inv.datasets).filterMap
            (entryOf part targets inv.drBlocks))).drBlocks r.drId =
          (partition_replicas part targets inv).1.drBlocks r.drId ++
            inv.drBlocks r.drId := R2 _ heE
      rw [h2, hdr1 r hr, if_neg hk]
      exact rfl
  · -- sites' dataset_replicas sets are restored
    intro s
    apply Finset.ext
    intro x
    rw [hrt, R4 s x]
    by_cases hs : s ∈ targets
    · rw [hsd1 s hs]
      constructor
      · rintro (hx | ⟨e, he, hex, hsx⟩)
        · rw [List.mem_toFinset, List.mem_filter] at hx
          obtain ⟨hxrows, hcond⟩ := hx
          have hxs : x.siteId = s := by
            have hb := (Bool.and_eq_true_iff.mp hcond).2
            simpa using hb
          rw [← hxs]
          exact hDR1 x hxrows
        · obtain ⟨r, hrrows, hor⟩ := List.mem_filterMap.mp he
          have he1 : e.1 = r := entryOf_fst part targets inv.drBlocks r e hor
          have hxr : x = r := by rw [← hex, he1]
          have hxrows : x ∈ rowsReplicas inv.datasets := by
            rw [hxr]
            exact hrrows
          rw [← hsx]
          exact hDR1 x hxrows
      · intro hx
        obtain ⟨hxrows, hxs⟩ := hDR2 s hs x hx
        by_cases hk : keptB part targets inv.drBlocks x = true
        · refine Or.inl ?_
          rw [List.mem_toFinset, List.mem_filter]
          exact ⟨hxrows, by simp [hk, hxs]⟩
        · have hkf : keptB part targets inv.drBlocks x = false :=
            Bool.eq_false_iff.mpr hk
          exact Or.inr ⟨(x, inv.drBlocks x.drId),
            List.mem_filterMap.mpr ⟨x, hxrows,
              entryOf_not_kept part targets inv.drBlocks x hkf⟩,
            rfl, hxs⟩
    · rw [hsd1' s hs]
      constructor
      · rintro (hx | ⟨e, he, hex, hsx⟩)
        · exact hx
        · obtain ⟨r, hrrows, hor⟩ := List.mem_filterMap.mp he
          have he1 : e.1 = r := entryOf_fst part targets inv.drBlocks r e hor
          have hxr : x = r := by rw [← hex, he1]
          have hxrows : x ∈ rowsReplicas inv.datasets := by
            rw [hxr]
            exact hrrows
          rw [← hsx]
          exact hDR1 x hxrows
      · exact Or.inl
  · -- sites' block-replica sets are restored
    intro s
    apply Finset.ext
    intro b
    rw [hrt, R5 s b]
    by_cases hs : s ∈ targets
    · rw [hsb1 s hs]
      constructor
      · rintro (hb | ⟨e, he, hes, hbe⟩)
        · rw [List.mem_toFinset, List.mem_flatMap] at hb
          obtain ⟨r, hrf, hbr⟩ := hb
          obtain ⟨hrrows, hcond⟩ := List.mem_filter.mp hrf
          have hrs : r.siteId = s := by
            have hb2 := (Bool.and_eq_true_iff.mp hcond).2
            simpa using hb2
          have hbbase : b ∈ inv.drBlocks r.drId := (List.mem_filter.mp hbr).1
          rw [← hrs]
          exact hBR1 r hrrows b hbbase
        · obtain ⟨r, hrrows, hor⟩ := List.mem_filterMap.mp he
          have he1 : e.1 = r := entryOf_fst part targets inv.drBlocks r e hor
          have hbbase : b ∈ inv.drBlocks r.drId :=
            entryOf_snd_subset part targets inv.drBlocks r e hor b hbe
          have hrs : r.siteId = s := by
            rw [← he1]
            exact hes
          rw [← hrs]
          exact hBR1 r hrrows b hbbase
      · intro hb
        obtain ⟨r, hrrows, hrs, hbbase⟩ := hBR2 s hs b hb
        by_cases hpb : part b = true
        · refine Or.inl ?_
          rw [List.mem_toFinset, List.mem_flatMap]
          refine ⟨r, ?_, ?_⟩
          · rw [List.mem_filter]
            refine ⟨hrrows, ?_⟩
            have hk : keptB part targets inv.drBlocks r = true := by
              rw [keptB_iff]
              refine ⟨by rw [hrs]; exact hs, ?_⟩
              intro hnil
              exact (List.filter_eq_nil_iff.mp hnil b hbbase) hpb
            simp [hk, hrs]
          · rw [List.mem_filter]
            exact ⟨hbbase, hpb⟩
        · refine Or.inr ?_
          have hbneg : b ∈ (inv.drBlocks r.drId).filter (fun y => !(part y)) := by
            rw [List.mem_filter]
            exact ⟨hbbase, by simp [hpb]⟩
          by_cases hk : keptB part targets inv.drBlocks r = true
          · refine ⟨(r, (inv.drBlocks r.drId).filter (fun y => !(part y))),
              List.mem_filterMap.mpr ⟨r, hrrows,
                entryOf_kept_partial part targets inv.drBlocks r hk ?_⟩,
              hrs, hbneg⟩
            intro hc
            rw [hc] at hbneg
            cases hbneg
          · have hkf : keptB part targets inv.drBlocks r = false :=
              Bool.eq_false_iff.mpr hk
            exact ⟨(r, inv.drBlocks r.drId),
              List.mem_filterMap.mpr ⟨r, hrrows,
                entryOf_not_kept part targets inv.drBlocks r hkf⟩,
              hrs, hbbase⟩
    · rw [hsb1' s hs]
      constructor
      · rintro (hb | ⟨e, he, hes, hbe⟩)
        · exact hb
        · obtain ⟨r, hrrows, hor⟩ := List.mem_filterMap.mp he
          have he1 : e.1 = r := entryOf_fst part targets inv.drBlocks r e hor
          have hbbase : b ∈ inv.drBlocks r.drId :=
            entryOf_snd_subset part targets inv.drBlocks r e hor b hbe
          have hrs : r.siteId = s := by
            rw [← he1]
            exact hes
          rw [← hrs]
          exact hBR1 r hrrows b hbbase
      · exact Or.inl

/-- A concrete well-formed inventory for the round-trip witness:
three replicas (one kept with leftover blocks, one dropped at the
target site, one at a non-target site) in one dataset, plus a dataset
with `replicas is None`. -/
def invRT : InventoryP :=
  { datasets := [(10, some [⟨1, 1, 10⟩, ⟨2, 1, 10⟩, ⟨3, 2, 10⟩]), (20, none)],
    drBlocks := fun i =>
      if i = 1 then [2, 3] else if i = 2 then [5] else if i = 3 then [4] else [],
    siteDRs := fun s =>
      if s = 1 then {⟨1, 1, 10⟩, ⟨2, 1, 10⟩}
      else if s = 2 then {⟨3, 2, 10⟩} else ∅,
    siteBRs := fun s =>
      if s = 1 then {2, 3, 5} else if s = 2 then {4} else ∅ }

/-- The even-block partition predicate used by the witness. -/
def partRT : Nat → Bool := fun b => b % 2 == 0

theorem partition_restore_roundtrip_witness :
    (∀ p ∈ invRT.datasets, p.2 = none →
      (p.1, (none : Option (List DRep))) ∈
        (roundtrip partRT {1} invRT).datasets) ∧
    (∀ p ∈ invRT.datasets, ∀ rs, p.2 = some rs →
      ∃ rs2, (p.1, some rs2) ∈ (roundtrip partRT {1} invRT).datasets ∧
        rs2.toFinset = rs.toFinset) ∧
    (∀ r ∈ rowsReplicas invRT.datasets,
      ((roundtrip partRT {1} invRT).drBlocks r.drId).toFinset =
        (invRT.drBlocks r.drId).toFinset) ∧
    (∀ s, (roundtrip partRT {1} invRT).siteDRs s = invRT.siteDRs s) ∧
    (∀ s, (roundtrip partRT {1} invRT).siteBRs s = invRT.siteBRs s) :=
  partition_restore_roundtrip partRT {1} invRT (by decide) (by decide)
    (by decide) (by decide) (by decide) (by decide) (by decide)

end Ddm
